import Mathlib

/-!
Verification development for the CleanMyCSV repository.

The repository cleans tabular data with pandas.  We embed the core logic
(`cleaner.py` and the instruction interpreter of `ai_helper.py`) shallowly:

* a cell is a dynamic value (`Val`): text, number, timestamp or missing;
  pandas floats are modelled as rationals, timestamps as an integer encoding
  of the calendar date;
* a `Table` is a header of column names plus row-major cell lists
  (pandas dataframes are rectangular; `Rect` states that invariant);
* a column dtype is inferred from the values it holds (a column of numbers
  and missings is numeric, of timestamps and missings datetime-like,
  anything else object), mirroring how the dataframes of this app acquire
  their dtypes from `read_csv` and from the coercion steps themselves;
* pandas and Python string routines (`str.strip`, `str.isdigit`, `float`,
  `pd.to_numeric`, `pd.to_datetime`, the `re` patterns of the interpreter)
  are embedded as executable functions over ASCII character classes, with
  the backtracking search semantics of `re.search` reproduced explicitly.
-/

namespace CleanMyCSV

/-! ## Dynamic cell values -/

/-- A cell of a dataframe: text, float (as a rational), timestamp
(encoded as an integer), or missing (NaN / NaT / None). -/
inductive Val where
  | vStr (s : String)
  | vNum (q : Rat)
  | vDate (d : Int)
  | vNA
deriving DecidableEq, Repr

/-- Missingness test (pandas `isna`). -/
def isNA : Val → Bool
  | .vNA => true
  | _ => false

/-! ## ASCII character classes (Python `\s`, `\w`, `str.isdigit`) -/

/-- Python whitespace (the ASCII part of `\s`): space, tab, newline,
carriage return, vertical tab, form feed. -/
def isWS (c : Char) : Bool :=
  c.toNat = 32 || c.toNat = 9 || c.toNat = 10 || c.toNat = 13 ||
  c.toNat = 11 || c.toNat = 12

/-- ASCII decimal digit. -/
def isDigitC (c : Char) : Bool := 48 ≤ c.toNat && c.toNat ≤ 57

/-- ASCII uppercase letter. -/
def isUpperC (c : Char) : Bool := 65 ≤ c.toNat && c.toNat ≤ 90

/-- ASCII lowercase letter. -/
def isLowerC (c : Char) : Bool := 97 ≤ c.toNat && c.toNat ≤ 122

/-- ASCII alphanumeric character. -/
def isAlnumC (c : Char) : Bool := isUpperC c || isLowerC c || isDigitC c

/-- A regex word character (`\w`): alphanumeric or underscore. -/
def isWordChar (c : Char) : Bool := isAlnumC c || c = '_'

/-- ASCII lowercasing of a character (Python `str.lower`). -/
def charLower (c : Char) : Char :=
  if isUpperC c then Char.ofNat (c.toNat + 32) else c

/-! ## Python string helpers -/

/-- Strip characters satisfying `p` from both ends of a character list. -/
def stripEnds (p : Char → Bool) (l : List Char) : List Char :=
  ((l.dropWhile p).reverse.dropWhile p).reverse

/-- Python `str.strip()` (whitespace from both ends). -/
def pyStrip (s : String) : String := String.mk (stripEnds isWS s.toList)

/-- The quote characters stripped by the interpreter
(an apostrophe, code 39, and a double quote, code 34). -/
def quoteChars : List Char := [Char.ofNat 39, Char.ofNat 34]

/-- Python `str.strip("..")` for the quote characters. -/
def pyStripQuotes (s : String) : String :=
  String.mk (stripEnds (fun c => c ∈ quoteChars) s.toList)

/-- Length of `dropWhile` never exceeds the input length. -/
theorem length_dropWhile_le (p : α → Bool) (l : List α) :
    (l.dropWhile p).length ≤ l.length := by
  induction l with
  | nil => simp
  | cons a l ih =>
    rw [List.dropWhile_cons]
    split
    · exact Nat.le_trans ih (by simp)
    · simp

/-- Run-collapsing engine: the flag records whether the previous
character was whitespace (in which case further whitespace is absorbed
into the underscore already emitted). -/
def collapseWsAux : Bool → List Char → List Char
  | _, [] => []
  | prevWs, c :: cs =>
    if isWS c then
      if prevWs then collapseWsAux true cs else '_' :: collapseWsAux true cs
    else c :: collapseWsAux false cs

/-- Replace each maximal whitespace run by a single underscore
(the effect of `re.sub(r"\s+", "_", s)`). -/
def collapseWs (l : List Char) : List Char := collapseWsAux false l

/-- Replace every character that is not a word character and not whitespace
by a space (the effect of `re.sub(r"[^\w\s]", " ", s)`). -/
def replacePunct (l : List Char) : List Char :=
  l.map (fun c => if isWordChar c || isWS c then c else ' ')

/-- From `cleaner.py`: `standardize_column_name` — strip, replace
non-word-non-space characters by spaces, collapse whitespace runs to
underscores, lowercase. -/
def standardize_column_name (name : String) : String :=
  String.mk ((collapseWs (replacePunct (stripEnds isWS name.toList))).map charLower)

/-! ## Numeric parsing and printing -/

/-- Digits to a natural number. -/
def digitsToNat (l : List Char) : Nat :=
  l.foldl (fun n c => n * 10 + (c.toNat - 48)) 0

/-- Parse an unsigned decimal numeral, optionally with a fractional part.
At least one digit must be present.  Models the common-format core of
Python `float` / `pd.to_numeric` string conversion. -/
def parseUnsigned (l : List Char) : Option Rat :=
  let intPart := l.takeWhile isDigitC
  let rest := l.drop intPart.length
  match rest with
  | [] => if intPart.isEmpty then none else some (mkRat (digitsToNat intPart) 1)
  | '.' :: frac =>
    if frac.all isDigitC && !(intPart.isEmpty && frac.isEmpty) then
      some (mkRat (digitsToNat intPart * 10 ^ frac.length + digitsToNat frac) (10 ^ frac.length))
    else none
  | _ => none

/-- Parse a signed decimal numeral (model of Python `float(...)` on
already-stripped text, restricted to plain decimal notation). -/
def pyParseNum (s : String) : Option Rat :=
  match s.toList with
  | '-' :: rest => (parseUnsigned rest).map (fun q => -q)
  | '+' :: rest => parseUnsigned rest
  | l => parseUnsigned l

/-- Python `str.isdigit()` (ASCII): nonempty and all digits. -/
def pyIsdigit (s : String) : Bool :=
  !s.toList.isEmpty && s.toList.all isDigitC

/-- Python `c in s` for a single character. -/
def pyContainsChar (s : String) (c : Char) : Bool := s.toList.contains c

/-- Zero-pad a numeral on the left to the given width. -/
def padZeros (width : Nat) (s : String) : String :=
  String.mk (List.replicate (width - s.length) '0') ++ s

/-- Decimal rendering of a nonnegative rational whose denominator divides a
power of ten (model of `str` on a float with a finite short expansion). -/
def numToStringNonneg (q : Rat) : String :=
  if q.den = 1 then toString q.num ++ ".0"
  else
    match (List.range 31).find? (fun k => q.den ∣ 10 ^ k) with
    | some k =>
      let scaled := q.num.natAbs * (10 ^ k / q.den)
      toString (scaled / 10 ^ k) ++ "." ++ padZeros k (toString (scaled % 10 ^ k))
    | none => toString q.num ++ "/" ++ toString q.den

/-- Model of Python `str` on a float value. -/
def numToString (q : Rat) : String :=
  if q < 0 then "-" ++ numToStringNonneg (-q) else numToStringNonneg q

/-- Two-digit zero-padded rendering. -/
def pad2 (n : Nat) : String := if n < 10 then "0" ++ toString n else toString n

/-- Model of Python `str` on a pandas timestamp (dates are encoded as
`y * 10000 + m * 100 + d`). -/
def dateToString (d : Int) : String :=
  let n := d.toNat
  toString (n / 10000) ++ "-" ++ pad2 (n / 100 % 100) ++ "-" ++ pad2 (n % 100) ++ " 00:00:00"

/-- Model of `astype(str)` on one cell: pandas stringifies missing values
as the text "nan". -/
def valToString : Val → String
  | .vStr s => s
  | .vNum q => numToString q
  | .vDate d => dateToString d
  | .vNA => "nan"

/-- Remove every comma (`str.replace(",", "")`). -/
def removeCommas (s : String) : String :=
  String.mk (s.toList.filter (fun c => c ≠ ','))

/-- One cell of `pd.to_numeric` on stringified input: the text "nan"
converts to a missing value, decimal numerals convert to numbers,
anything else fails. -/
def toNumericCell (s : String) : Option Val :=
  if s = "nan" then some .vNA else (pyParseNum s).map .vNum

/-- Column dtype test for `s.dtype.kind in "biufc"`: a column holding only
numbers and missings is of numeric dtype in this model. -/
def isNumericDtypeVals (vals : List Val) : Bool :=
  vals.all (fun v => match v with | .vNum _ => true | .vNA => true | _ => false)

/-- The post-strip text forms of a column: stringify each cell, remove
commas, strip whitespace (`astype(str).str.replace(",", "").str.strip()`). -/
def postStripStrings (vals : List Val) : List String :=
  vals.map (fun v => pyStrip (removeCommas (valToString v)))

/-- From `cleaner.py`: `coerce_numeric_series`.  Numeric-dtype columns are
returned unchanged.  Otherwise the column is stringified and stripped, and
`pd.to_numeric(..., errors="ignore")` is applied: if every cell converts
the converted column is returned, and if any cell fails the whole
post-strip text column is returned (with `errors="ignore"`, any failure
returns the input of `to_numeric` unchanged). -/
def coerce_numeric_series (vals : List Val) : List Val :=
  if isNumericDtypeVals vals then vals
  else if (postStripStrings vals).all (fun s => (toNumericCell s).isSome) then
    (postStripStrings vals).map (fun s => (toNumericCell s).getD .vNA)
  else
    (postStripStrings vals).map .vStr

/-! ## Date parsing -/

/-- Split a character list at every separator satisfying `p`
(like `re.split`, empty pieces are kept). -/
def splitOnPred (p : Char → Bool) : List Char → List (List Char)
  | [] => [[]]
  | c :: cs =>
    if p c then [] :: splitOnPred p cs
    else
      match splitOnPred p cs with
      | [] => [[c]]
      | g :: gs => (c :: g) :: gs

/-- Encode a validated calendar date. -/
def encodeDate (y m d : Nat) : Option Int :=
  if 1 ≤ m && m ≤ 12 && 1 ≤ d && d ≤ 31 then some ((y * 10000 + m * 100 + d : Nat) : Int)
  else none

/-- Permissive date parsing (model of `pd.to_datetime` auto-detection,
restricted to the dash/slash numeric formats the app's data uses):
`YYYY-MM-DD`, `YYYY/MM/DD` and `MM/DD/YYYY`, with validation. -/
def parseDate (s : String) : Option Int :=
  let parts := splitOnPred (fun c => c = '-' || c = '/') (pyStrip s).toList
  match parts with
  | [a, b, c] =>
    if (a ++ b ++ c).all isDigitC && !a.isEmpty && !b.isEmpty && !c.isEmpty then
      if a.length = 4 then encodeDate (digitsToNat a) (digitsToNat b) (digitsToNat c)
      else if c.length = 4 then encodeDate (digitsToNat c) (digitsToNat a) (digitsToNat b)
      else none
    else none
  | _ => none

/-- One cell of `pd.to_datetime(..., errors="coerce")` on a column:
text is parsed permissively (failures coerce to missing), missing stays
missing, timestamps stay, numbers are treated as epoch offsets (model). -/
def toDatetimeCell : Val → Val
  | .vStr s => match parseDate s with | some d => .vDate d | none => .vNA
  | .vNA => .vNA
  | .vDate d => .vDate d
  | .vNum q => .vDate q.floor

/-- Column dtypes of this model. -/
inductive Dtype where
  | num
  | dat
  | obj
deriving DecidableEq, Repr

/-- Infer the dtype of a column from its values. -/
def inferDtype (vals : List Val) : Dtype :=
  if isNumericDtypeVals vals then .num
  else if vals.all (fun v => match v with | .vDate _ => true | .vNA => true | _ => false) then .dat
  else .obj

/-- The sample taken by `try_parse_dates`: up to 20 stringified
non-missing values (`dropna().astype(str).head(20)`). -/
def sampleStrings (vals : List Val) : List String :=
  ((vals.filter (fun v => !isNA v)).map valToString).take 20

/-- The `ok` counter loop of `try_parse_dates`: how many sampled values
parse as dates without raising. -/
def dateOkCount (vals : List Val) : Nat :=
  (sampleStrings vals).foldl (fun n s => if (parseDate s).isSome then n + 1 else n) 0

/-- The per-column body of `try_parse_dates`: object-dtype columns whose
sample has at least 3 parseable values are converted wholesale with
failures coerced to missing; all other columns are left unchanged. -/
def tryParseCol (vals : List Val) : List Val :=
  if inferDtype vals = .obj then
    if 3 ≤ dateOkCount vals then vals.map toDatetimeCell else vals
  else vals

/-! ## Tables and the cleaning pipeline -/

/-- A dataframe: named columns over row-major cells. -/
structure Table where
  header : List String
  rows : List (List Val)
deriving DecidableEq, Repr

/-- The dataframe invariant: every row has one cell per column. -/
def Rect (t : Table) : Prop := ∀ r ∈ t.rows, r.length = t.header.length

instance : DecidablePred Rect := fun t =>
  inferInstanceAs (Decidable (∀ r ∈ t.rows, r.length = t.header.length))

/-- Strip string cells, leave other cells untouched (the `applymap`
of the trim step). -/
def trimVal : Val → Val
  | .vStr s => .vStr (pyStrip s)
  | v => v

/-- Pipeline step 1: trim whitespace in every string cell. -/
def trimTable (t : Table) : Table :=
  ⟨t.header, t.rows.map (fun r => r.map trimVal)⟩

/-- Pipeline step 2: standardize the column names. -/
def stdTable (t : Table) : Table :=
  ⟨t.header.map standardize_column_name, t.rows⟩

/-- A row counts as nonempty when it has a non-missing cell. -/
def rowNonNA (r : List Val) : Bool := r.any (fun v => !isNA v)

/-- Pipeline step 3: `dropna(how="all")` — drop rows whose cells are all
missing. -/
def dropEmptyRowsT (t : Table) : Table :=
  ⟨t.header, t.rows.filter rowNonNA⟩

/-- The first cell of each row (missing when the row is exhausted). -/
def headsOf (rows : List (List Val)) : List Val :=
  rows.map (fun r => r.headD .vNA)

/-- Each row without its first cell. -/
def tailsOf (rows : List (List Val)) : List (List Val) :=
  rows.map List.tail

/-- Put a column of cells back in front of each row. -/
def zipConsRows (heads : List Val) (rows : List (List Val)) : List (List Val) :=
  List.zipWith List.cons heads rows

/-- Recursive engine of `dropna(axis=1, how="all")`: walk the columns,
keep a column iff it has a non-missing value. -/
def decGo : List String → List (List Val) → List String × List (List Val)
  | [], rows => ([], rows.map (fun _ => []))
  | h :: hs, rows =>
    if (headsOf rows).any (fun v => !isNA v) then
      (h :: (decGo hs (tailsOf rows)).1, zipConsRows (headsOf rows) (decGo hs (tailsOf rows)).2)
    else decGo hs (tailsOf rows)

/-- Pipeline step 4: drop columns whose values are all missing. -/
def dropEmptyColsT (t : Table) : Table :=
  ⟨(decGo t.header t.rows).1, (decGo t.header t.rows).2⟩

/-- Keep the first occurrence of each element (`drop_duplicates`,
`keep="first"`; missing cells compare equal to each other, as in pandas
duplicate detection). -/
def dedupFirstGo [DecidableEq α] (seen : List α) : List α → List α
  | [] => []
  | x :: xs => if x ∈ seen then dedupFirstGo seen xs else x :: dedupFirstGo (x :: seen) xs

/-- Deduplicate keeping first occurrences. -/
def dedupFirst [DecidableEq α] (l : List α) : List α := dedupFirstGo [] l

/-- Pipeline step 5: drop duplicate rows, keeping the first of each. -/
def dropDupT (t : Table) : Table :=
  ⟨t.header, dedupFirst t.rows⟩

/-- Apply a series transformation to every column of a row-major table
(the per-column loops of steps 6 and 7). -/
def mapColsGo (f : List Val → List Val) : List String → List (List Val) → List (List Val)
  | [], rows => rows.map (fun _ => [])
  | _ :: hs, rows => zipConsRows (f (headsOf rows)) (mapColsGo f hs (tailsOf rows))

/-- Pipeline step 6: `coerce_numeric_series` on every column. -/
def fixNumbersT (t : Table) : Table :=
  ⟨t.header, mapColsGo coerce_numeric_series t.header t.rows⟩

/-- From `cleaner.py`: `try_parse_dates` — the heuristic date step applied
to every column. -/
def try_parse_dates (t : Table) : Table :=
  ⟨t.header, mapColsGo tryParseCol t.header t.rows⟩

/-- The seven boolean flags of `clean_dataframe`. -/
structure CleanCfg where
  trim_spaces : Bool
  standardize_columns : Bool
  drop_empty_rows : Bool
  drop_empty_cols : Bool
  drop_duplicates : Bool
  fix_numbers : Bool
  parse_dates : Bool
deriving DecidableEq, Repr

/-- From `cleaner.py`: `clean_dataframe` — the fixed-order pipeline.
The final `reset_index(drop=True)` renumbers the positional index, which
this row-major model does not represent. -/
def clean_dataframe (df : Table) (cfg : CleanCfg) : Table :=
  let o1 := if cfg.trim_spaces then trimTable df else df
  let o2 := if cfg.standardize_columns then stdTable o1 else o1
  let o3 := if cfg.drop_empty_rows then dropEmptyRowsT o2 else o2
  let o4 := if cfg.drop_empty_cols then dropEmptyColsT o3 else o3
  let o5 := if cfg.drop_duplicates then dropDupT o4 else o4
  let o6 := if cfg.fix_numbers then fixNumbersT o5 else o5
  if cfg.parse_dates then try_parse_dates o6 else o6

/-! ## Delimiter detection -/

/-- Occurrences of a single character in a text sample (`str.count`). -/
def countChar (c : Char) (s : String) : Nat := s.toList.count c

/-- The fixed candidate order of `detect_delimiter`. -/
def delimCandidates : List Char := [',', ';', '|', '\t']

/-- From `cleaner.py`: `detect_delimiter` — the candidate with the highest
count wins (Python `max` keeps the first maximum over the insertion
order); a zero maximum falls back to the comma default. -/
def detect_delimiter (sample : String) : Char :=
  let best := [';', '|', '\t'].foldl
    (fun acc d => if countChar d sample > countChar acc sample then d else acc) ','
  if countChar best sample = 0 then ',' else best

/-! ## Regex machinery for the instruction interpreter

The seven patterns of `ai_helper.py` are fixed shapes: case-insensitive
literals separated by whitespace classes, with greedy `(.+)` and lazy
`(.+?)` capture groups.  We reproduce the `re.search` semantics directly:
candidate start positions are scanned left to right, greedy pieces try
longer extents first, lazy pieces try shorter extents first. -/

/-- The regex dot: any character except a newline. -/
def isDotChar (c : Char) : Bool := c ≠ '\n'

/-- Consume a case-insensitive literal. -/
def eatLit : List Char → List Char → Option (List Char)
  | [], cs => some cs
  | _ :: _, [] => none
  | w :: ws, c :: cs => if charLower c = charLower w then eatLit ws cs else none

/-- Try `f j` for `j = n, n - 1, ..., 1`, returning the first success. -/
def firstSomeDown (f : Nat → Option α) : Nat → Option α
  | 0 => none
  | j + 1 => (f (j + 1)) <|> firstSomeDown f j

/-- Try `f start, f (start + 1), ...` for `fuel` steps, returning the
first success. -/
def firstSomeUp (f : Nat → Option α) : Nat → Nat → Option α
  | _, 0 => none
  | start, fuel + 1 => (f start) <|> firstSomeUp f (start + 1) fuel

/-- Length of the maximal whitespace run at the front. -/
def wsRunLen (cs : List Char) : Nat := (cs.takeWhile isWS).length

/-- Length of the maximal dot-matching run at the front. -/
def dotRunLen (cs : List Char) : Nat := (cs.takeWhile isDotChar).length

/-- Greedy `\s+` followed by the continuation. -/
def tryWsPlus (cs : List Char) (k : List Char → Option α) : Option α :=
  firstSomeDown (fun j => k (cs.drop j)) (wsRunLen cs)

/-- Greedy `\s*` followed by the continuation. -/
def tryWsStar (cs : List Char) (k : List Char → Option α) : Option α :=
  firstSomeDown (fun j => k (cs.drop j)) (wsRunLen cs) <|> k cs

/-- Lazy `(.+?)`: the continuation receives the capture and the rest,
shorter captures tried first. -/
def tryLazyDots (cs : List Char) (k : List Char → List Char → Option α) : Option α :=
  firstSomeUp (fun L => k (cs.take L) (cs.drop L)) 1 (dotRunLen cs)

/-- Greedy `(.+)`: longer captures tried first. -/
def tryGreedyDots (cs : List Char) (k : List Char → List Char → Option α) : Option α :=
  firstSomeDown (fun L => k (cs.take L) (cs.drop L)) (dotRunLen cs)

/-- Scan candidate match starts left to right (the behaviour of
`re.search`). -/
def searchGroups (matchAt : List Char → Option α) : List Char → Option α
  | [] => matchAt []
  | cs@(_ :: rest) => matchAt cs <|> searchGroups matchAt rest

/-- Attempt `REN_RE` (`rename\s+(.+)`) at one position. -/
def matchRenameAt (cs : List Char) : Option String :=
  (eatLit "rename".toList cs).bind fun r1 =>
    tryWsPlus r1 fun r2 =>
      tryGreedyDots r2 fun cap _ => some (String.mk cap)

/-- Search for `REN_RE`. -/
def matchRename (s : String) : Option String := searchGroups matchRenameAt s.toList

/-- Attempt `DROP_COLS_RE` (`drop\s+columns?\s*:\s*(.+)`) at one
position. -/
def matchDropColsAt (cs : List Char) : Option String :=
  (eatLit "drop".toList cs).bind fun r1 =>
    tryWsPlus r1 fun r2 =>
      (eatLit "column".toList r2).bind fun r3 =>
        let afterS : List Char → Option String := fun r4 =>
          tryWsStar r4 fun r5 =>
            (eatLit ":".toList r5).bind fun r6 =>
              tryWsStar r6 fun r7 =>
                tryGreedyDots r7 fun cap _ => some (String.mk cap)
        ((eatLit "s".toList r3).bind afterS) <|> afterS r3

/-- Search for `DROP_COLS_RE`. -/
def matchDropCols (s : String) : Option String := searchGroups matchDropColsAt s.toList

/-- Attempt `DROP_NULL_RE` (`drop\s+rows\s+where\s+(.+?)\s+is\s+null`)
at one position. -/
def matchDropNullAt (cs : List Char) : Option String :=
  (eatLit "drop".toList cs).bind fun r1 =>
    tryWsPlus r1 fun r2 =>
      (eatLit "rows".toList r2).bind fun r3 =>
        tryWsPlus r3 fun r4 =>
          (eatLit "where".toList r4).bind fun r5 =>
            tryWsPlus r5 fun r6 =>
              tryLazyDots r6 fun cap r7 =>
                tryWsPlus r7 fun r8 =>
                  (eatLit "is".toList r8).bind fun r9 =>
                    tryWsPlus r9 fun r10 =>
                      (eatLit "null".toList r10).map fun _ => String.mk cap

/-- Search for `DROP_NULL_RE`. -/
def matchDropNull (s : String) : Option String := searchGroups matchDropNullAt s.toList

/-- Attempt `DROP_EQ_RE` (`drop\s+rows\s+where\s+(.+?)\s*=\s*(.+)`)
at one position. -/
def matchDropEqAt (cs : List Char) : Option (String × String) :=
  (eatLit "drop".toList cs).bind fun r1 =>
    tryWsPlus r1 fun r2 =>
      (eatLit "rows".toList r2).bind fun r3 =>
        tryWsPlus r3 fun r4 =>
          (eatLit "where".toList r4).bind fun r5 =>
            tryWsPlus r5 fun r6 =>
              tryLazyDots r6 fun cap1 r7 =>
                tryWsStar r7 fun r8 =>
                  (eatLit "=".toList r8).bind fun r9 =>
                    tryWsStar r9 fun r10 =>
                      tryGreedyDots r10 fun cap2 _ =>
                        some (String.mk cap1, String.mk cap2)

/-- Search for `DROP_EQ_RE`. -/
def matchDropEq (s : String) : Option (String × String) := searchGroups matchDropEqAt s.toList

/-- Attempt `FILL_RE` (`fill\s+nulls\s+in\s+(.+?)\s+with\s+(.+)`)
at one position. -/
def matchFillAt (cs : List Char) : Option (String × String) :=
  (eatLit "fill".toList cs).bind fun r1 =>
    tryWsPlus r1 fun r2 =>
      (eatLit "nulls".toList r2).bind fun r3 =>
        tryWsPlus r3 fun r4 =>
          (eatLit "in".toList r4).bind fun r5 =>
            tryWsPlus r5 fun r6 =>
              tryLazyDots r6 fun cap1 r7 =>
                tryWsPlus r7 fun r8 =>
                  (eatLit "with".toList r8).bind fun r9 =>
                    tryWsPlus r9 fun r10 =>
                      tryGreedyDots r10 fun cap2 _ =>
                        some (String.mk cap1, String.mk cap2)

/-- Search for `FILL_RE`. -/
def matchFill (s : String) : Option (String × String) := searchGroups matchFillAt s.toList

/-- Attempt `NUMERIC_RE` (`convert\s+(.+?)\s+to\s+numeric`) at one
position. -/
def matchNumericAt (cs : List Char) : Option String :=
  (eatLit "convert".toList cs).bind fun r1 =>
    tryWsPlus r1 fun r2 =>
      tryLazyDots r2 fun cap r3 =>
        tryWsPlus r3 fun r4 =>
          (eatLit "to".toList r4).bind fun r5 =>
            tryWsPlus r5 fun r6 =>
              (eatLit "numeric".toList r6).map fun _ => String.mk cap

/-- Search for `NUMERIC_RE`. -/
def matchNumeric (s : String) : Option String := searchGroups matchNumericAt s.toList

/-- Attempt `DATE_RE` (`parse\s+(.+?)\s+as\s+date(?:\s+format\s+(.+))?`)
at one position; the second component is the optional format capture. -/
def matchDateAt (cs : List Char) : Option (String × Option String) :=
  (eatLit "parse".toList cs).bind fun r1 =>
    tryWsPlus r1 fun r2 =>
      tryLazyDots r2 fun cap r3 =>
        tryWsPlus r3 fun r4 =>
          (eatLit "as".toList r4).bind fun r5 =>
            tryWsPlus r5 fun r6 =>
              (eatLit "date".toList r6).map fun r7 =>
                let fmt := tryWsPlus r7 fun r8 =>
                  (eatLit "format".toList r8).bind fun r9 =>
                    tryWsPlus r9 fun r10 =>
                      tryGreedyDots r10 fun capf _ => some (String.mk capf)
                (String.mk cap, fmt)

/-- Search for `DATE_RE`. -/
def matchDate (s : String) : Option (String × Option String) := searchGroups matchDateAt s.toList

/-! ## The instruction interpreter -/

/-- Substring membership over character lists. -/
def listContainsSub (sub : List Char) : List Char → Bool
  | [] => sub.isEmpty
  | cs@(_ :: rest) => sub.isPrefixOf cs || listContainsSub sub rest

/-- Python `sub in s`. -/
def containsSub (s sub : String) : Bool := listContainsSub sub.toList s.toList

/-- Split at the first occurrence of a separator. -/
def splitFirstOn (sep : List Char) : List Char → List Char × List Char
  | [] => ([], [])
  | c :: rest =>
    if sep.isPrefixOf (c :: rest) then ([], (c :: rest).drop sep.length)
    else
      let res := splitFirstOn sep rest
      (c :: res.1, res.2)

/-- Python `p.split("->", 1)` with both pieces stripped, as the rename
block does. -/
def pySplitOnceArrow (s : String) : String × String :=
  let res := splitFirstOn ['-', '>'] s.toList
  (pyStrip (String.mk res.1), pyStrip (String.mk res.2))

/-- From `ai_helper.py`: `_split_items` — split on commas and semicolons,
strip, drop empties. -/
def splitItems (s : String) : List String :=
  ((splitOnPred (fun c => c = ';' || c = ',') s.toList).map
    (fun l => pyStrip (String.mk l))).filter (fun x => x ≠ "")

/-- Insert into an insertion-ordered dictionary (later values overwrite,
position of an existing key is kept, as in a Python dict). -/
def dictInsert (m : List (String × String)) (k v : String) : List (String × String) :=
  if m.any (fun p => p.1 = k) then m.map (fun p => if p.1 = k then (k, v) else p)
  else m ++ [(k, v)]

/-- Dictionary lookup. -/
def dictLookup (m : List (String × String)) (k : String) : Option String :=
  (m.find? (fun p => p.1 = k)).map (fun p => p.2)

/-- A Python single quote, by character code. -/
def pyQuote : String := String.mk [Char.ofNat 39]

/-- Rendering of a Python dict of strings, for the rename log line. -/
def pyDictRepr (m : List (String × String)) : String :=
  "\x7b" ++ String.intercalate ", "
    (m.map (fun p => pyQuote ++ p.1 ++ pyQuote ++ ": " ++ pyQuote ++ p.2 ++ pyQuote)) ++ "\x7d"

/-- Rendering of a Python list of strings, for the drop-columns log
line. -/
def pyListRepr (l : List String) : String :=
  "[" ++ String.intercalate ", " (l.map (fun x => pyQuote ++ x ++ pyQuote)) ++ "]"

/-- The RENAME block. -/
def stepRename (t : Table) (text : String) : Table × List String :=
  match matchRename text with
  | none => (t, [])
  | some g1 =>
    let pairs := splitItems g1
    let mapping := pairs.foldl (fun m p =>
      if containsSub p "->" then
        let lr := pySplitOnceArrow p
        dictInsert m lr.1 lr.2
      else m) []
    let mapping := if mapping.isEmpty && containsSub g1 "->" then
        let lr := pySplitOnceArrow g1
        [(lr.1, lr.2)]
      else mapping
    if mapping.isEmpty then (t, [])
    else (⟨t.header.map (fun n => (dictLookup mapping n).getD n), t.rows⟩,
          ["Renamed columns: " ++ pyDictRepr mapping])

/-- Column-dropping engine: remove the columns with the listed names. -/
def dropColsGo (names : List String) : List String → List (List Val) → List String × List (List Val)
  | [], rows => ([], rows.map (fun _ => []))
  | h :: hs, rows =>
    if h ∈ names then dropColsGo names hs (tailsOf rows)
    else (h :: (dropColsGo names hs (tailsOf rows)).1,
          zipConsRows (headsOf rows) (dropColsGo names hs (tailsOf rows)).2)

/-- The DROP COLUMNS block. -/
def stepDropCols (t : Table) (text : String) : Table × List String :=
  match matchDropCols text with
  | none => (t, [])
  | some g1 =>
    let cols := (splitItems g1).filter (fun c => c ∈ t.header)
    if cols.isEmpty then (t, [])
    else (⟨(dropColsGo cols t.header t.rows).1, (dropColsGo cols t.header t.rows).2⟩,
          ["Dropped columns: " ++ pyListRepr cols])

/-- The DROP ROWS WHERE NULL block. -/
def stepDropNull (t : Table) (text : String) : Table × List String :=
  match matchDropNull text with
  | none => (t, [])
  | some g1 =>
    let col := pyStrip g1
    if col ∈ t.header then
      let j := t.header.findIdx (fun n => n == col)
      let kept := t.rows.filter (fun r => !isNA (r.getD j .vNA))
      (⟨t.header, kept⟩,
       ["Dropped " ++ toString (t.rows.length - kept.length) ++ " rows where " ++ col ++ " is null"])
    else (t, [])

/-- Elementwise `cell != val` against a string, pandas style: a missing
or non-string cell compares unequal (and is therefore kept). -/
def cellNeqStr (v : Val) (s : String) : Bool :=
  match v with
  | .vStr x => x ≠ s
  | _ => true

/-- The DROP ROWS WHERE EQUAL block. -/
def stepDropEq (t : Table) (text : String) : Table × List String :=
  match matchDropEq text with
  | none => (t, [])
  | some g =>
    let col := pyStrip g.1
    let val := pyStripQuotes (pyStrip g.2)
    if col ∈ t.header then
      let j := t.header.findIdx (fun n => n == col)
      let kept := t.rows.filter (fun r => cellNeqStr (r.getD j .vNA) val)
      (⟨t.header, kept⟩,
       ["Dropped " ++ toString (t.rows.length - kept.length) ++ " rows where " ++ col ++ " == " ++ val])
    else (t, [])

/-- The fill-value coercion of the FILL block: numbers when the text is
all digits or has a decimal point and `float` succeeds, text otherwise
(the `try` around `float(val)` turns a failure back into text). -/
def fillCast (val : String) : Val :=
  if pyContainsChar val '.' || pyIsdigit val then
    match pyParseNum val with
    | some q => .vNum q
    | none => .vStr val
  else .vStr val

/-- The FILL NULLS block. -/
def stepFill (t : Table) (text : String) : Table × List String :=
  match matchFill text with
  | none => (t, [])
  | some g =>
    let col := pyStrip g.1
    let val := pyStripQuotes (pyStrip g.2)
    if col ∈ t.header then
      let vc := fillCast val
      let j := t.header.findIdx (fun n => n == col)
      (⟨t.header, t.rows.map (fun r => r.set j (if isNA (r.getD j .vNA) then vc else r.getD j .vNA))⟩,
       ["Filled nulls in " ++ col ++ " with " ++ valToString vc])
    else (t, [])

/-- The CONVERT TO NUMERIC block: stringify, strip commas and
whitespace, then `pd.to_numeric(..., errors="coerce")` cell by cell. -/
def stepNumeric (t : Table) (text : String) : Table × List String :=
  match matchNumeric text with
  | none => (t, [])
  | some g1 =>
    let col := pyStrip g1
    if col ∈ t.header then
      let j := t.header.findIdx (fun n => n == col)
      (⟨t.header, t.rows.map (fun r =>
          r.set j ((toNumericCell (pyStrip (removeCommas (valToString (r.getD j .vNA))))).getD .vNA))⟩,
       ["Converted " ++ col ++ " to numeric"])
    else (t, [])

/-- The format directives accepted by the strptime-style format
compiler; a percent followed by anything else raises. -/
def validFmtDirectives : List Char :=
  ['Y', 'y', 'm', 'd', 'H', 'M', 'S', 'f', 'j', 'z', 'Z', 'a', 'A', 'b', 'B',
   'p', 'c', 'x', 'X', 'U', 'W', 'w', 'u', 'G', 'V', '%']

/-- Compilation of an explicit date format (model of pandas building the
strptime regex): a bad directive raises a ValueError before any value is
parsed, so `errors="coerce"` does not protect against it. -/
def compileFormat : List Char → Except String Unit
  | [] => .ok ()
  | '%' :: [] => .error "ValueError: stray percent in format"
  | '%' :: c :: rest =>
    if c ∈ validFmtDirectives then compileFormat rest
    else .error "ValueError: bad directive in format"
  | _ :: rest => compileFormat rest

/-- A strptime-style parse of one string under a compiled format (model
supporting the numeric year/month/day directives and literal text;
values failing the format coerce to missing per cell). -/
def strptimeModelGo : List Char → List Char → Nat → Nat → Nat → Option (Nat × Nat × Nat)
  | [], [], y, m, d => some (y, m, d)
  | [], _ :: _, _, _, _ => none
  | '%' :: 'Y' :: fr, s, _, m, d =>
    let digs := (s.takeWhile isDigitC).take 4
    if digs.isEmpty then none
    else strptimeModelGo fr (s.drop digs.length) (digitsToNat digs) m d
  | '%' :: 'm' :: fr, s, y, _, d =>
    let digs := (s.takeWhile isDigitC).take 2
    if digs.isEmpty then none
    else strptimeModelGo fr (s.drop digs.length) y (digitsToNat digs) d
  | '%' :: 'd' :: fr, s, y, m, _ =>
    let digs := (s.takeWhile isDigitC).take 2
    if digs.isEmpty then none
    else strptimeModelGo fr (s.drop digs.length) y m (digitsToNat digs)
  | '%' :: '%' :: fr, s, y, m, d =>
    match s with
    | '%' :: srest => strptimeModelGo fr srest y m d
    | _ => none
  | '%' :: _ :: _, _, _, _, _ => none
  | c :: fr, s, y, m, d =>
    match s with
    | x :: srest => if x = c then strptimeModelGo fr srest y m d else none
    | [] => none

/-- Parse one string with an explicit format, validating the result. -/
def strptimeModel (fmt : String) (s : String) : Option Int :=
  match strptimeModelGo fmt.toList s.toList 1900 1 1 with
  | some ymd => encodeDate ymd.1 ymd.2.1 ymd.2.2
  | none => none

/-- One cell of `pd.to_datetime(..., errors="coerce", format=fmt)` after
the format compiled: failures coerce to missing. -/
def toDatetimeFormatCell (fmt : String) : Val → Val
  | .vStr s => match strptimeModel fmt s with | some d => .vDate d | none => .vNA
  | .vNA => .vNA
  | .vDate d => .vDate d
  | .vNum _ => .vNA

/-- The PARSE DATE block.  With an explicit format the format is
compiled first and a bad directive escapes as an error; without one,
permissive per-cell parsing coerces failures to missing. -/
def stepDate (t : Table) (text : String) : Except String (Table × List String) :=
  match matchDate text with
  | none => .ok (t, [])
  | some g =>
    let col := pyStrip g.1
    let fmt := pyStrip (g.2.getD "")
    if col ∈ t.header then
      let j := t.header.findIdx (fun n => n == col)
      if fmt ≠ "" then
        match compileFormat fmt.toList with
        | .error e => .error e
        | .ok _ =>
          .ok (⟨t.header, t.rows.map (fun r => r.set j (toDatetimeFormatCell fmt (r.getD j .vNA)))⟩,
               ["Parsed " ++ col ++ " as date with format " ++ fmt])
      else
        .ok (⟨t.header, t.rows.map (fun r => r.set j (toDatetimeCell (r.getD j .vNA)))⟩,
             ["Parsed " ++ col ++ " as date (auto-detect)"])
    else .ok (t, [])

/-- From `ai_helper.py`: `ai_apply_instructions_safe` — strip the
instruction text, return early when empty, then run the seven pattern
blocks in order over the shared text, concatenating their log entries.
The date block is the one place an exception can escape. -/
def ai_apply_instructions_safe (df : Table) (instructions : String) :
    Except String (Table × List String) :=
  let text := pyStrip instructions
  if text = "" then .ok (df, [])
  else
    let s1 := stepRename df text
    let s2 := stepDropCols s1.1 text
    let s3 := stepDropNull s2.1 text
    let s4 := stepDropEq s3.1 text
    let s5 := stepFill s4.1 text
    let s6 := stepNumeric s5.1 text
    match stepDate s6.1 text with
    | .error e => .error e
    | .ok s7 =>
      .ok (s7.1, s1.2 ++ s2.2 ++ s3.2 ++ s4.2 ++ s5.2 ++ s6.2 ++ s7.2)

/-! ## Specification-side comparison definitions

The next definitions follow sentences of the specification (or of an
amended sentence) rather than the source; they exist to be compared with
the embedded source functions. -/

/-- Option-valued traversal of a list (all-or-nothing). -/
def traverseOption (f : α → Option β) : List α → Option (List β)
  | [] => some []
  | x :: xs =>
    match f x, traverseOption f xs with
    | some y, some ys => some (y :: ys)
    | _, _ => none

/-- Spec claim model of the numeric-fix step, following the claim's words:
conversion failure is per-cell (failing cells become missing, succeeding
cells become numbers), and only a column with zero converting cells is
left as its post-strip text form. -/
def coerce_numeric_series_claim_model (vals : List Val) : List Val :=
  if isNumericDtypeVals vals then vals
  else if (postStripStrings vals).any (fun s => (toNumericCell s).isSome) then
    (postStripStrings vals).map (fun s => (toNumericCell s).getD .vNA)
  else
    (postStripStrings vals).map .vStr

/-- Amended model of the numeric-fix step: conversion is all-or-nothing
per column — if every post-strip cell converts the converted column is
used, and if any cell fails the whole column is left as post-strip
text. -/
def coerce_numeric_series_amended_model (vals : List Val) : List Val :=
  if isNumericDtypeVals vals then vals
  else
    match traverseOption toNumericCell (postStripStrings vals) with
    | some converted => converted
    | none => (postStripStrings vals).map .vStr

/-- Spec claim model of column-name standardization, following the
claim's words: trim, replace every character that is not alphanumeric or
whitespace (underscores included) with a space, collapse whitespace runs
to single underscores, lowercase. -/
def standardize_claim_model (name : String) : String :=
  String.mk ((collapseWs ((stripEnds isWS name.toList).map
    (fun c => if isAlnumC c || isWS c then c else ' '))).map charLower)

/-- One step of fold-based whitespace-run collapsing: the flag records
whether the previous character was whitespace. -/
def collapseStep (acc : List Char × Bool) (c : Char) : List Char × Bool :=
  if isWS c then (if acc.2 then acc else (acc.1 ++ ['_'], true))
  else (acc.1 ++ [c], false)

/-- Whitespace-run collapsing expressed as a left fold carrying an
in-a-run flag (an independent formulation used by the amended model). -/
def collapseWsFold (l : List Char) : List Char :=
  (l.foldl collapseStep ([], false)).1

/-- Amended model of column-name standardization: trim, replace every
character that is neither alphanumeric nor an underscore nor whitespace
with a space (underscores are kept verbatim), collapse whitespace runs
to single underscores, lowercase. -/
def standardize_amended_model (name : String) : String :=
  String.mk ((collapseWsFold ((stripEnds isWS name.toList).map
    (fun c => if isAlnumC c || c = '_' || isWS c then c else ' '))).map charLower)

/-- The parse-success count over the sample, spec side (a filter length
rather than the source's fold counter). -/
def sampleParseCount (vals : List Val) : Nat :=
  ((sampleStrings vals).filter (fun s => (parseDate s).isSome)).length

/-- The change log produced by an interpreter run (empty when the run
escaped with an exception). -/
def logOf (r : Except String (Table × List String)) : List String :=
  match r with
  | .ok p => p.2
  | .error _ => []

instance : DecidableEq (Except String (Table × List String)) := fun a b =>
  match a, b with
  | .ok x, .ok y =>
    decidable_of_iff (x = y) ⟨fun h => by rw [h], fun h => by injection h⟩
  | .error e, .error f =>
    decidable_of_iff (e = f) ⟨fun h => by rw [h], fun h => by injection h⟩
  | .ok _, .error _ => .isFalse (fun hc => Except.noConfusion hc)
  | .error _, .ok _ => .isFalse (fun hc => Except.noConfusion hc)

/-! ## Supporting lemmas: lengths and sublists -/

theorem tailsOf_length (rows : List (List Val)) : (tailsOf rows).length = rows.length := by
  simp [tailsOf]

theorem headsOf_length (rows : List (List Val)) : (headsOf rows).length = rows.length := by
  simp [headsOf]

theorem zipConsRows_length (h : List Val) (r : List (List Val)) :
    (zipConsRows h r).length = min h.length r.length := by
  simp [zipConsRows]

theorem decGo_rows_length (hd : List String) (rows : List (List Val)) :
    (decGo hd rows).2.length = rows.length := by
  induction hd generalizing rows with
  | nil => simp [decGo]
  | cons h hs ih =>
    simp only [decGo]
    split
    · simp [zipConsRows_length, headsOf_length, ih, tailsOf_length]
    · simp [ih, tailsOf_length]

theorem decGo_header_sublist (hd : List String) (rows : List (List Val)) :
    List.Sublist (decGo hd rows).1 hd := by
  induction hd generalizing rows with
  | nil => simp [decGo]
  | cons h hs ih =>
    simp only [decGo]
    split
    · exact (ih (tailsOf rows)).cons₂ h
    · exact (ih (tailsOf rows)).cons h

theorem dedupFirstGo_sublist [DecidableEq α] (l : List α) :
    ∀ seen : List α, List.Sublist (dedupFirstGo seen l) l := by
  induction l with
  | nil => intro seen; simp [dedupFirstGo]
  | cons x xs ih =>
    intro seen
    simp only [dedupFirstGo]
    split
    · exact (ih seen).cons x
    · exact (ih (x :: seen)).cons₂ x

theorem dedupFirst_sublist [DecidableEq α] (l : List α) : List.Sublist (dedupFirst l) l :=
  dedupFirstGo_sublist l []

theorem coerce_numeric_series_length (vals : List Val) :
    (coerce_numeric_series vals).length = vals.length := by
  unfold coerce_numeric_series
  split
  · rfl
  · split <;> simp [postStripStrings]

theorem tryParseCol_length (vals : List Val) :
    (tryParseCol vals).length = vals.length := by
  unfold tryParseCol
  split
  · split <;> simp
  · rfl

theorem mapColsGo_length (f : List Val → List Val)
    (hf : ∀ c, (f c).length = c.length) (hd : List String) (rows : List (List Val)) :
    (mapColsGo f hd rows).length = rows.length := by
  induction hd generalizing rows with
  | nil => simp [mapColsGo]
  | cons h hs ih =>
    simp [mapColsGo, zipConsRows_length, hf, headsOf_length, ih, tailsOf_length]

/-- Both dimensions weakly decrease from `b` to `a`. -/
def sizeLe (a b : Table) : Prop :=
  a.rows.length ≤ b.rows.length ∧ a.header.length ≤ b.header.length

theorem sizeLe_refl (t : Table) : sizeLe t t := ⟨le_refl _, le_refl _⟩

theorem sizeLe_trans {a b c : Table} (h1 : sizeLe a b) (h2 : sizeLe b c) : sizeLe a c :=
  ⟨le_trans h1.1 h2.1, le_trans h1.2 h2.2⟩

theorem sizeLe_trim (t : Table) : sizeLe (trimTable t) t := by
  constructor <;> simp [trimTable]

theorem sizeLe_std (t : Table) : sizeLe (stdTable t) t := by
  constructor <;> simp [stdTable]

theorem sizeLe_der (t : Table) : sizeLe (dropEmptyRowsT t) t := by
  exact ⟨List.length_filter_le _ _, le_refl _⟩

theorem sizeLe_dec (t : Table) : sizeLe (dropEmptyColsT t) t := by
  refine ⟨?_, ?_⟩
  · simp [dropEmptyColsT, decGo_rows_length]
  · exact (decGo_header_sublist t.header t.rows).length_le

theorem sizeLe_dup (t : Table) : sizeLe (dropDupT t) t :=
  ⟨(dedupFirst_sublist t.rows).length_le, le_refl _⟩

theorem sizeLe_fix (t : Table) : sizeLe (fixNumbersT t) t := by
  refine ⟨?_, le_refl _⟩
  simp [fixNumbersT, mapColsGo_length coerce_numeric_series coerce_numeric_series_length]

theorem sizeLe_dates (t : Table) : sizeLe (try_parse_dates t) t := by
  refine ⟨?_, le_refl _⟩
  simp [try_parse_dates, mapColsGo_length tryParseCol tryParseCol_length]

theorem sizeLe_cond (b : Bool) (f : Table → Table) (hf : ∀ u, sizeLe (f u) u) (u : Table) :
    sizeLe (if b then f u else u) u := by
  cases b
  · simpa using sizeLe_refl u
  · simpa using hf u

/-- C6: cleaning never grows the table — for every table and every
configuration, the cleaned table has at most as many rows and at most as
many columns as the input. -/
theorem clean_dataframe_sizes_le (t : Table) (cfg : CleanCfg) :
    (clean_dataframe t cfg).rows.length ≤ t.rows.length ∧
    (clean_dataframe t cfg).header.length ≤ t.header.length := by
  unfold clean_dataframe
  exact sizeLe_trans
    (sizeLe_cond cfg.parse_dates _ sizeLe_dates _)
    (sizeLe_trans (sizeLe_cond cfg.fix_numbers _ sizeLe_fix _)
      (sizeLe_trans (sizeLe_cond cfg.drop_duplicates _ sizeLe_dup _)
        (sizeLe_trans (sizeLe_cond cfg.drop_empty_cols _ sizeLe_dec _)
          (sizeLe_trans (sizeLe_cond cfg.drop_empty_rows _ sizeLe_der _)
            (sizeLe_trans (sizeLe_cond cfg.standardize_columns _ sizeLe_std _)
              (sizeLe_cond cfg.trim_spaces _ sizeLe_trim _))))))

/-- C9: the delimiter detector always returns one of the four
candidates; its count is maximal among the candidates; an all-zero count
profile yields the comma default; and on ties the earliest candidate in
the fixed order comma, semicolon, pipe, tab wins. -/
theorem detect_delimiter_spec (s : String) :
    detect_delimiter s ∈ delimCandidates ∧
    (∀ c ∈ delimCandidates, countChar c s ≤ countChar (detect_delimiter s) s) ∧
    ((∀ c ∈ delimCandidates, countChar c s = 0) → detect_delimiter s = ',') ∧
    (∀ c ∈ delimCandidates, countChar c s = countChar (detect_delimiter s) s →
      delimCandidates.indexOf (detect_delimiter s) ≤ delimCandidates.indexOf c) := by
  simp only [detect_delimiter, List.foldl_cons, List.foldl_nil]
  split_ifs <;>
    refine ⟨by decide, ?_, ?_, ?_⟩ <;>
    first
    | (intro hz
       have z1 := hz ',' (by decide)
       have z2 := hz ';' (by decide)
       have z3 := hz '|' (by decide)
       have z4 := hz '\t' (by decide)
       first | rfl | (exfalso; omega))
    | (intro c hc
       fin_cases hc <;> (intros; first | decide | omega))

/-- C9 witness: on text with no candidate occurrences the default comma
is returned (instantiating the all-zero clause at a concrete sample). -/
theorem detect_delimiter_spec_witness : detect_delimiter "abc" = ',' :=
  (detect_delimiter_spec "abc").2.2.1 (by decide)

/-! ## C3: the numeric-fix step is all-or-nothing, not per-cell -/

theorem traverseOption_all_isSome (f : α → Option β) (d : β) (l : List α)
    (h : l.all (fun x => (f x).isSome) = true) :
    traverseOption f l = some (l.map (fun x => (f x).getD d)) := by
  induction l with
  | nil => rfl
  | cons x xs ih =>
    simp only [List.all_cons, Bool.and_eq_true] at h
    rcases hfx : f x with _ | y
    · rw [hfx] at h
      simp at h
    · simp only [traverseOption, hfx, ih h.2, List.map_cons, Option.getD_some]

theorem traverseOption_none_of_not_all (f : α → Option β) (l : List α)
    (h : ¬ l.all (fun x => (f x).isSome) = true) :
    traverseOption f l = none := by
  induction l with
  | nil => simp at h
  | cons x xs ih =>
    simp only [List.all_cons, Bool.and_eq_true] at h
    rcases hfx : f x with _ | y
    · simp [traverseOption, hfx]
    · have hxs : ¬ xs.all (fun x => (f x).isSome) = true := by
        intro hx
        exact h ⟨by simp [hfx], hx⟩
      simp [traverseOption, hfx, ih hxs]

/-- C3 counterexample: on the column of texts "1" and "abc" the source's
coercion leaves both cells as text (all-or-nothing `errors="ignore"`),
while the claim's per-cell reading would produce the number 1 and a
missing value. -/
theorem coerce_numeric_series_claim_counterexample :
    coerce_numeric_series [Val.vStr "1", Val.vStr "abc"] = [Val.vStr "1", Val.vStr "abc"] ∧
    coerce_numeric_series_claim_model [Val.vStr "1", Val.vStr "abc"] = [Val.vNum 1, Val.vNA] ∧
    ¬ coerce_numeric_series [Val.vStr "1", Val.vStr "abc"]
        = coerce_numeric_series_claim_model [Val.vStr "1", Val.vStr "abc"] := by
  decide

/-- C3 amended: per-cell failure handling never applies — the coercion
of a non-numeric column converts it wholesale when every post-strip cell
converts and otherwise leaves the entire column in its post-strip text
form; no exception is raised either way. -/
theorem coerce_numeric_series_all_or_nothing (vals : List Val) :
    coerce_numeric_series vals = coerce_numeric_series_amended_model vals := by
  unfold coerce_numeric_series coerce_numeric_series_amended_model
  split
  · rfl
  · by_cases hall : (postStripStrings vals).all (fun s => (toNumericCell s).isSome) = true
    · rw [if_pos hall, traverseOption_all_isSome toNumericCell Val.vNA _ hall]
    · rw [if_neg hall, traverseOption_none_of_not_all toNumericCell _ hall]

/-! ## C5: column-name standardization keeps underscores -/

theorem collapseWsFold_go (l : List Char) : ∀ (acc : List Char) (b : Bool),
    (l.foldl collapseStep (acc, b)).1 = acc ++ collapseWsAux b l := by
  induction l with
  | nil => intro acc b; simp [collapseWsAux]
  | cons c cs ih =>
    intro acc b
    by_cases hc : isWS c = true
    · cases b
      · rw [List.foldl_cons, show collapseStep (acc, false) c = (acc ++ ['_'], true) by
          simp [collapseStep, hc]]
        rw [ih (acc ++ ['_']) true]
        simp [collapseWsAux, hc]
      · rw [List.foldl_cons, show collapseStep (acc, true) c = (acc, true) by
          simp [collapseStep, hc]]
        rw [ih acc true]
        simp [collapseWsAux, hc]
    · cases b <;>
      · rw [List.foldl_cons, show collapseStep (acc, _) c = (acc ++ [c], false) by
          simp [collapseStep, hc]]
        rw [ih (acc ++ [c]) false]
        simp [collapseWsAux, hc]

theorem collapseWsFold_eq (l : List Char) : collapseWsFold l = collapseWs l := by
  have h := collapseWsFold_go l [] false
  simpa [collapseWsFold, collapseWs] using h

/-- C5 counterexample: on the name with an underscore followed by a
space, the source keeps the underscore (it is a regex word character)
and turns the space into a second underscore, while the claim's
replace-non-alphanumeric reading would merge both into one underscore. -/
theorem standardize_claim_counterexample :
    standardize_column_name "a_ b" = "a__b" ∧
    standardize_claim_model "a_ b" = "a_b" ∧
    ¬ standardize_column_name "a_ b" = standardize_claim_model "a_ b" := by
  decide

/-- C5 amended: the standardization trims surrounding whitespace first,
replaces every character that is neither alphanumeric nor an underscore
nor whitespace with a space (underscores are kept verbatim), collapses
every whitespace run to a single underscore, and lowercases. -/
theorem standardize_column_name_amended (name : String) :
    standardize_column_name name = standardize_amended_model name := by
  unfold standardize_column_name standardize_amended_model replacePunct
  rw [collapseWsFold_eq]
  have hfun : (fun c => if isWordChar c || isWS c then c else ' ')
      = (fun c : Char => if isAlnumC c || c = '_' || isWS c then c else ' ') := by
    funext c
    have hcond : (isWordChar c || isWS c) = (isAlnumC c || decide (c = '_') || isWS c) := by
      simp [isWordChar, Bool.or_assoc]
    simp only [hcond]
  rw [hfun]

/-! ## C8: fill-value coercion -/

theorem takeWhile_eq_self_of_all (p : α → Bool) (l : List α) (h : l.all p = true) :
    l.takeWhile p = l := by
  induction l with
  | nil => rfl
  | cons x xs ih =>
    simp only [List.all_cons, Bool.and_eq_true] at h
    rw [List.takeWhile_cons, if_pos h.1, ih h.2]

theorem parseUnsigned_all_digits (l : List Char) (hne : l ≠ [])
    (hall : l.all isDigitC = true) : (parseUnsigned l).isSome = true := by
  obtain ⟨c, cs, rfl⟩ := List.exists_cons_of_ne_nil hne
  unfold parseUnsigned
  simp only [takeWhile_eq_self_of_all isDigitC _ hall, List.drop_length]
  simp

theorem pyIsdigit_parse (val : String) (h : pyIsdigit val = true) :
    (pyParseNum val).isSome = true := by
  unfold pyIsdigit at h
  simp only [Bool.and_eq_true, Bool.not_eq_true'] at h
  obtain ⟨hne', hall⟩ := h
  have hne : val.toList ≠ [] := by
    intro h0
    rw [h0] at hne'
    simp at hne'
  unfold pyParseNum
  split
  · next rest heq =>
    exfalso
    have := List.all_eq_true.mp hall '-' (by rw [heq]; exact List.mem_cons_self _ _)
    simp [isDigitC] at this
  · next rest heq =>
    exfalso
    have := List.all_eq_true.mp hall '+' (by rw [heq]; exact List.mem_cons_self _ _)
    simp [isDigitC] at this
  · exact parseUnsigned_all_digits _ hne hall

/-- C8 counterexample: the instruction filling with the value "a.b"
(which contains a decimal point) fills the text "a.b", not a number —
`float` fails inside the `try` and the text is kept — so a value is not
coerced to a number exactly when it is all-digits or has a decimal
point. -/
theorem fill_nulls_coercion_counterexample :
    ai_apply_instructions_safe ⟨["c"], [[Val.vNA]]⟩ "fill nulls in c with a.b"
      = .ok (⟨["c"], [[Val.vStr "a.b"]]⟩, ["Filled nulls in c with a.b"]) ∧
    pyContainsChar "a.b" '.' = true := by
  decide

/-- C8 amended: the fill value becomes a number exactly when it is
all-digits or contains a decimal point AND the float conversion
succeeds (all-digits values always convert); otherwise the text is
kept.  In particular filling Amount nulls with 0 fills the number 0. -/
theorem fill_nulls_coercion_amended :
    (∀ val : String, (∃ q, fillCast val = Val.vNum q) ↔
        ((pyContainsChar val '.' || pyIsdigit val) = true ∧ (pyParseNum val).isSome = true)) ∧
    (∀ val : String, pyIsdigit val = true → (pyParseNum val).isSome = true) ∧
    ai_apply_instructions_safe ⟨["Amount"], [[Val.vNA], [Val.vNum 5]]⟩ "fill nulls in Amount with 0"
      = .ok (⟨["Amount"], [[Val.vNum 0], [Val.vNum 5]]⟩, ["Filled nulls in Amount with 0.0"]) := by
  refine ⟨?_, pyIsdigit_parse, by decide⟩
  intro val
  unfold fillCast
  by_cases hcond : (pyContainsChar val '.' || pyIsdigit val) = true
  · rw [if_pos hcond]
    rcases hp : pyParseNum val with _ | q <;> simp [hp, hcond]
  · rw [if_neg hcond]
    simp [hcond]

/-- C8 witness: the amended statement used at the all-digits value. -/
theorem fill_nulls_coercion_amended_witness : (pyParseNum "0").isSome = true :=
  fill_nulls_coercion_amended.2.1 "0" (by decide)

/-! ## C4: the date-parsing threshold -/

theorem foldl_count_start (p : String → Bool) (l : List String) : ∀ n : Nat,
    l.foldl (fun n s => if p s then n + 1 else n) n = n + (l.filter p).length := by
  induction l with
  | nil => intro n; simp
  | cons x xs ih =>
    intro n
    by_cases hx : p x = true
    · rw [List.foldl_cons, List.filter_cons, if_pos hx]
      simp only [hx, if_true, ih]
      simp [Nat.add_assoc, Nat.add_comm 1]
    · rw [List.foldl_cons, List.filter_cons, if_neg hx]
      simp only [hx, if_false, ih]
      simp [hx]

/-- C4: the date step samples up to 20 non-missing stringified values of
a column; a non-text column is left unchanged; a text column is
converted wholesale (failures to missing) when at least 3 sampled values
parse, and left exactly unchanged when fewer than 3 parse. -/
theorem try_parse_dates_threshold (vals : List Val) :
    (inferDtype vals ≠ .obj → tryParseCol vals = vals) ∧
    (inferDtype vals = .obj →
      (3 ≤ sampleParseCount vals → tryParseCol vals = vals.map toDatetimeCell) ∧
      (sampleParseCount vals < 3 → tryParseCol vals = vals)) := by
  have hcount : dateOkCount vals = sampleParseCount vals := by
    unfold dateOkCount sampleParseCount
    rw [foldl_count_start]
    simp
  constructor
  · intro h
    unfold tryParseCol
    rw [if_neg h]
  · intro h
    constructor
    · intro h3
      unfold tryParseCol
      rw [if_pos h, if_pos (by rw [hcount]; exact h3)]
    · intro h3
      unfold tryParseCol
      rw [if_pos h, if_neg (by rw [hcount]; omega)]

/-- C4 witness: the specification's five-value column (two parseable
dates) is below the threshold and is left exactly unchanged. -/
theorem try_parse_dates_threshold_witness :
    tryParseCol [Val.vStr "2024-01-05", Val.vStr "05/01/2024", Val.vStr "not a date",
        Val.vStr "not a date", Val.vStr "not a date"]
      = [Val.vStr "2024-01-05", Val.vStr "05/01/2024", Val.vStr "not a date",
        Val.vStr "not a date", Val.vStr "not a date"] :=
  ((try_parse_dates_threshold _).2 (by decide)).2 (by decide)

/-! ## C2: an explicit date format can raise -/

/-- C2 (code bug): the instruction parsing a present column as a date
with the malformed format directive percent-Q escapes as a ValueError —
format compilation happens before per-value coercion, so the
`errors="coerce"` of the date block does not protect against it, and
the interpreter raises instead of returning a table. -/
theorem parse_date_bad_format_raises :
    ai_apply_instructions_safe ⟨["d"], [[Val.vStr "x"]]⟩ "parse d as date format %Q"
      = .error "ValueError: bad directive in format" := by
  decide

/-! ## C7: unmatched instructions are no-ops -/

/-- C7: when the instruction text matches none of the recognized command
patterns of the interpreter, the table is returned unchanged together
with an empty change log. -/
theorem unmatched_instruction_noop (t : Table) (instr : String)
    (h1 : matchRename (pyStrip instr) = none)
    (h2 : matchDropCols (pyStrip instr) = none)
    (h3 : matchDropNull (pyStrip instr) = none)
    (h4 : matchDropEq (pyStrip instr) = none)
    (h5 : matchFill (pyStrip instr) = none)
    (h6 : matchNumeric (pyStrip instr) = none)
    (h7 : matchDate (pyStrip instr) = none) :
    ai_apply_instructions_safe t instr = .ok (t, []) := by
  unfold ai_apply_instructions_safe
  by_cases he : pyStrip instr = ""
  · rw [if_pos he]
  · rw [if_neg he]
    simp only [stepRename, stepDropCols, stepDropNull, stepDropEq, stepFill, stepNumeric,
      stepDate, h1, h2, h3, h4, h5, h6, h7]
    simp

/-- C7 witness: the specification's unsupported instruction leaves a
concrete table unchanged with an empty change log. -/
theorem unmatched_instruction_noop_witness :
    ai_apply_instructions_safe ⟨["a"], [[Val.vNum 1]]⟩ "do something unsupported"
      = .ok (⟨["a"], [[Val.vNum 1]]⟩, []) :=
  unmatched_instruction_noop _ _ (by decide) (by decide) (by decide) (by decide)
    (by decide) (by decide) (by decide)

/-! ## C10: the change log has at most seven entries -/

theorem stepRename_log_le (t : Table) (text : String) : (stepRename t text).2.length ≤ 1 := by
  unfold stepRename
  split
  · simp
  · dsimp only
    split <;> split <;> simp

theorem stepDropCols_log_le (t : Table) (text : String) : (stepDropCols t text).2.length ≤ 1 := by
  unfold stepDropCols
  split
  · simp
  · dsimp only
    split <;> simp

theorem stepDropNull_log_le (t : Table) (text : String) : (stepDropNull t text).2.length ≤ 1 := by
  unfold stepDropNull
  split
  · simp
  · dsimp only
    split <;> simp

theorem stepDropEq_log_le (t : Table) (text : String) : (stepDropEq t text).2.length ≤ 1 := by
  unfold stepDropEq
  split
  · simp
  · dsimp only
    split <;> simp

theorem stepFill_log_le (t : Table) (text : String) : (stepFill t text).2.length ≤ 1 := by
  unfold stepFill
  split
  · simp
  · dsimp only
    split <;> simp

theorem stepNumeric_log_le (t : Table) (text : String) : (stepNumeric t text).2.length ≤ 1 := by
  unfold stepNumeric
  split
  · simp
  · dsimp only
    split <;> simp

theorem stepDate_log_le (t : Table) (text : String) :
    ∀ p, stepDate t text = .ok p → p.2.length ≤ 1 := by
  unfold stepDate
  split
  · intro p hp
    injection hp with h
    rw [← h]
    simp
  · dsimp only
    split
    · split
      · split
        · intro p hp
          exact absurd hp (fun hc => Except.noConfusion hc)
        · intro p hp
          injection hp with h
          rw [← h]
          simp
      · intro p hp
        injection hp with h
        rw [← h]
        simp
    · intro p hp
      injection hp with h
      rw [← h]
      simp

/-- C10: every interpreter run appends at most seven change-log entries
(each of the seven command blocks contributes at most one). -/
theorem change_log_at_most_seven (t : Table) (instr : String) :
    (logOf (ai_apply_instructions_safe t instr)).length ≤ 7 := by
  unfold ai_apply_instructions_safe
  by_cases he : pyStrip instr = ""
  · rw [if_pos he]
    simp [logOf]
  · rw [if_neg he]
    dsimp only
    have l1 := stepRename_log_le t (pyStrip instr)
    have l2 := stepDropCols_log_le (stepRename t (pyStrip instr)).1 (pyStrip instr)
    have l3 := stepDropNull_log_le
      (stepDropCols (stepRename t (pyStrip instr)).1 (pyStrip instr)).1 (pyStrip instr)
    have l4 := stepDropEq_log_le
      (stepDropNull (stepDropCols (stepRename t (pyStrip instr)).1 (pyStrip instr)).1
        (pyStrip instr)).1 (pyStrip instr)
    have l5 := stepFill_log_le
      (stepDropEq (stepDropNull (stepDropCols (stepRename t (pyStrip instr)).1
        (pyStrip instr)).1 (pyStrip instr)).1 (pyStrip instr)).1 (pyStrip instr)
    have l6 := stepNumeric_log_le
      (stepFill (stepDropEq (stepDropNull (stepDropCols (stepRename t (pyStrip instr)).1
        (pyStrip instr)).1 (pyStrip instr)).1 (pyStrip instr)).1 (pyStrip instr)).1
      (pyStrip instr)
    rcases hd : stepDate
      (stepNumeric (stepFill (stepDropEq (stepDropNull (stepDropCols (stepRename t
        (pyStrip instr)).1 (pyStrip instr)).1 (pyStrip instr)).1 (pyStrip instr)).1
        (pyStrip instr)).1 (pyStrip instr)).1 (pyStrip instr) with e | p
    · simp [logOf]
    · have l7 := stepDate_log_le _ _ p hd
      simp only [logOf, List.length_append]
      omega

/-! ## C1 groundwork: idempotence of the text-level helpers -/

theorem toNat_charOfNat (n : Nat) (h : n < 55296) : (Char.ofNat n).toNat = n := by
  have h3 : n.isValidChar := Or.inl h
  simp only [Char.ofNat]
  rw [dif_pos h3]
  rfl

theorem isUpperC_iff (c : Char) : isUpperC c = true ↔ 65 ≤ c.toNat ∧ c.toNat ≤ 90 := by
  simp [isUpperC]

theorem charLower_toNat_of_upper (c : Char) (h : isUpperC c = true) :
    (charLower c).toNat = c.toNat + 32 := by
  unfold charLower
  rw [if_pos h]
  exact toNat_charOfNat _ (by have := (isUpperC_iff c).mp h; omega)

theorem charLower_of_not_upper (c : Char) (h : ¬ isUpperC c = true) : charLower c = c := by
  unfold charLower
  rw [if_neg h]

theorem charLower_wordChar (c : Char) (h : isWordChar c = true) :
    isWordChar (charLower c) = true := by
  by_cases hu : isUpperC c = true
  · have ht := charLower_toNat_of_upper c hu
    have hr := (isUpperC_iff c).mp hu
    have hl : isLowerC (charLower c) = true := by
      simp only [isLowerC, ht, Bool.and_eq_true, decide_eq_true_eq]
      omega
    simp [isWordChar, isAlnumC, hl]
  · rw [charLower_of_not_upper c hu]
    exact h

theorem charLower_ws (c : Char) : isWS (charLower c) = isWS c := by
  by_cases hu : isUpperC c = true
  · have ht := charLower_toNat_of_upper c hu
    have hr := (isUpperC_iff c).mp hu
    have h1 : isWS (charLower c) = false := by
      simp only [isWS, ht]
      simp only [Bool.or_eq_false_iff, decide_eq_false_iff_not]
      omega
    have h2 : isWS c = false := by
      simp only [isWS]
      simp only [Bool.or_eq_false_iff, decide_eq_false_iff_not]
      omega
    rw [h1, h2]
  · rw [charLower_of_not_upper c hu]

theorem charLower_idem (c : Char) : charLower (charLower c) = charLower c := by
  by_cases hu : isUpperC c = true
  · have ht := charLower_toNat_of_upper c hu
    have hr := (isUpperC_iff c).mp hu
    refine charLower_of_not_upper _ ?_
    simp only [isUpperC, ht, Bool.and_eq_true, decide_eq_true_eq]
    omega
  · rw [charLower_of_not_upper c hu, charLower_of_not_upper c hu]

theorem head?_get_zero (l : List α) (h : 0 < l.length) :
    l.head? = some (l.get ⟨0, h⟩) := by
  cases l with
  | nil => simp at h
  | cons a as => rfl

theorem stripEnds_of_forall_false (p : Char → Bool) (l : List Char)
    (h : ∀ c ∈ l, p c = false) : stripEnds p l = l := by
  unfold stripEnds
  have e1 : l.dropWhile p = l := by
    rw [List.dropWhile_eq_self_iff]
    intro hl
    rw [h _ (l.get_mem _ _)]
    simp
  rw [e1]
  have e2 : l.reverse.dropWhile p = l.reverse := by
    rw [List.dropWhile_eq_self_iff]
    intro hl
    rw [h _ (List.mem_reverse.mp (l.reverse.get_mem _ _))]
    simp
  rw [e2, List.reverse_reverse]

theorem mem_collapseWsAux (c : Char) :
    ∀ (b : Bool) (l : List Char), c ∈ collapseWsAux b l →
      c = '_' ∨ (c ∈ l ∧ isWS c = false) := by
  intro b l
  induction l generalizing b with
  | nil => intro h; simp [collapseWsAux] at h
  | cons a as ih =>
    intro h
    by_cases ha : isWS a = true
    · simp only [collapseWsAux, ha, if_true] at h
      cases b with
      | true =>
        rcases ih true h with h1 | ⟨h2, h3⟩
        · exact Or.inl h1
        · exact Or.inr ⟨List.mem_cons_of_mem a h2, h3⟩
      | false =>
        rcases List.mem_cons.mp h with h1 | h1
        · exact Or.inl h1
        · rcases ih true h1 with h2 | ⟨h2, h3⟩
          · exact Or.inl h2
          · exact Or.inr ⟨List.mem_cons_of_mem a h2, h3⟩
    · simp only [collapseWsAux, ha, if_false] at h
      rcases List.mem_cons.mp h with h1 | h1
      · subst h1
        exact Or.inr ⟨List.mem_cons_self c as, by simpa using ha⟩
      · rcases ih false h1 with h2 | ⟨h2, h3⟩
        · exact Or.inl h2
        · exact Or.inr ⟨List.mem_cons_of_mem a h2, h3⟩

theorem collapseWsAux_of_no_ws (l : List Char) (h : ∀ c ∈ l, isWS c = false) :
    ∀ b : Bool, collapseWsAux b l = l := by
  induction l with
  | nil => intro b; rfl
  | cons a as ih =>
    intro b
    have ha : isWS a = false := h a (List.mem_cons_self a as)
    simp only [collapseWsAux, ha, Bool.false_eq_true, if_false]
    rw [ih (fun c hc => h c (List.mem_cons_of_mem a hc)) false]

theorem mem_replacePunct (c : Char) (l : List Char) (h : c ∈ replacePunct l) :
    isWordChar c = true ∨ isWS c = true := by
  unfold replacePunct at h
  rcases List.mem_map.mp h with ⟨d, _, hd⟩
  by_cases hcond : (isWordChar d || isWS d) = true
  · rw [if_pos hcond] at hd
    subst hd
    simpa using hcond
  · rw [if_neg hcond] at hd
    subst hd
    right
    decide

/-- Every character of a standardized name is a word character that is
not whitespace and is already lowercase. -/
theorem standardize_chars_good (l : List Char) :
    ∀ c ∈ (collapseWs (replacePunct (stripEnds isWS l))).map charLower,
      isWordChar c = true ∧ isWS c = false ∧ charLower c = c := by
  intro c hc
  rcases List.mem_map.mp hc with ⟨c0, hc0, rfl⟩
  rcases mem_collapseWsAux c0 false _ hc0 with h1 | ⟨h1, h2⟩
  · subst h1
    refine ⟨by decide, by decide, by decide⟩
  · have hw : isWordChar c0 = true := by
      rcases mem_replacePunct c0 _ h1 with h | h
      · exact h
      · rw [h] at h2
        exact absurd h2 (by simp)
    refine ⟨charLower_wordChar c0 hw, ?_, charLower_idem c0⟩
    rw [charLower_ws c0, h2]

theorem standardize_column_name_idem (s : String) :
    standardize_column_name (standardize_column_name s) = standardize_column_name s := by
  have good := standardize_chars_good s.toList
  show String.mk ((collapseWs (replacePunct (stripEnds isWS
      ((collapseWs (replacePunct (stripEnds isWS s.toList))).map charLower)))).map charLower)
    = String.mk ((collapseWs (replacePunct (stripEnds isWS s.toList))).map charLower)
  set L := (collapseWs (replacePunct (stripEnds isWS s.toList))).map charLower with hL
  rw [stripEnds_of_forall_false isWS L (fun c hc => (good c hc).2.1)]
  have hrep : replacePunct L = L := by
    unfold replacePunct
    have : ∀ c ∈ L, (if isWordChar c || isWS c then c else ' ') = c := by
      intro c hc
      rw [if_pos (by rw [(good c hc).1]; rfl)]
    rw [List.map_congr_left this]
    exact List.map_id' L
  rw [hrep]
  have hcol : collapseWs L = L :=
    collapseWsAux_of_no_ws L (fun c hc => (good c hc).2.1) false
  rw [show collapseWs L = L from hcol]
  have hlow : L.map charLower = L := by
    have : ∀ c ∈ L, charLower c = c := fun c hc => (good c hc).2.2
    rw [List.map_congr_left this]
    exact List.map_id' L
  rw [hlow]

/-- Stripping is idempotent: the ends of a stripped list do not satisfy
the predicate. -/
theorem stripEnds_idem (p : Char → Bool) (l : List Char) :
    stripEnds p (stripEnds p l) = stripEnds p l := by
  unfold stripEnds
  set A := l.dropWhile p with hA
  set B := A.reverse.dropWhile p with hB
  have hBhead : ∀ c, B.head? = some c → p c = false := by
    intro c hc
    have := List.head?_dropWhile_not p A.reverse
    rw [← hB] at this
    rw [hc] at this
    exact this
  have hArevLast : ∀ c, A.reverse.getLast? = some c → p c = false := by
    intro c hc
    rw [List.getLast?_reverse] at hc
    have := List.head?_dropWhile_not p l
    rw [← hA] at this
    rw [hc] at this
    exact this
  have hBlast : ∀ c, B.getLast? = some c → p c = false := by
    intro c hc
    rcases List.dropWhile_suffix (l := A.reverse) p with ⟨t, ht⟩
    have hBne : B ≠ [] := by
      intro h0
      rw [h0] at hc
      simp at hc
    apply hArevLast c
    rw [← ht, List.getLast?_append_of_ne_nil _ hBne]
    exact hc
  have h1 : B.reverse.dropWhile p = B.reverse := by
    rw [List.dropWhile_eq_self_iff]
    intro hl hcontr
    have hhead := head?_get_zero B.reverse hl
    rw [List.head?_reverse] at hhead
    exact absurd hcontr (by rw [hBlast _ hhead]; simp)
  rw [h1]
  have h2 : B.reverse.reverse.dropWhile p = B.reverse.reverse := by
    rw [List.reverse_reverse]
    rw [List.dropWhile_eq_self_iff]
    intro hl hcontr
    have hhead := head?_get_zero B hl
    exact absurd hcontr (by rw [hBhead _ hhead]; simp)
  rw [h2, List.reverse_reverse]

theorem pyStrip_idem (s : String) : pyStrip (pyStrip s) = pyStrip s := by
  unfold pyStrip
  exact congrArg String.mk (stripEnds_idem isWS s.toList)

theorem trimVal_idem (v : Val) : trimVal (trimVal v) = trimVal v := by
  cases v with
  | vStr s => exact congrArg Val.vStr (pyStrip_idem s)
  | vNum q => rfl
  | vDate d => rfl
  | vNA => rfl

/-! ## C1 groundwork: fixed-point predicates of the structural steps -/

/-- Every string cell of the table is already stripped. -/
def TrimFixed (t : Table) : Prop := ∀ r ∈ t.rows, ∀ v ∈ r, trimVal v = v

/-- Every column name is already in standardized form. -/
def NamesStd (t : Table) : Prop := ∀ n ∈ t.header, standardize_column_name n = n

/-- No row is entirely missing. -/
def NoEmptyRows (t : Table) : Prop := ∀ r ∈ t.rows, rowNonNA r = true

/-- Every column (by position) holds a non-missing value, list level. -/
def ColsNonNAL (hd : List String) (rows : List (List Val)) : Prop :=
  ∀ j < hd.length, (rows.map (fun r => r.getD j Val.vNA)).any (fun v => !isNA v) = true

/-- Every column of the table holds a non-missing value. -/
def ColsNonNA (t : Table) : Prop := ColsNonNAL t.header t.rows

/-- No two rows are equal. -/
def NodupRows (t : Table) : Prop := t.rows.Nodup

theorem map_eq_self_of (l : List α) (f : α → α) (h : ∀ a ∈ l, f a = a) : l.map f = l := by
  induction l with
  | nil => rfl
  | cons a as ih =>
    rw [List.map_cons, h a (List.mem_cons_self a as),
      ih (fun x hx => h x (List.mem_cons_of_mem a hx))]

theorem trimTable_of_fixed (t : Table) (h : TrimFixed t) : trimTable t = t := by
  cases t with
  | mk hd rows =>
    show Table.mk hd (rows.map fun r => r.map trimVal) = Table.mk hd rows
    rw [map_eq_self_of rows _ (fun r hr => map_eq_self_of r trimVal (h r hr))]

theorem trimTable_fixes (t : Table) : TrimFixed (trimTable t) := by
  intro r hr v hv
  rcases List.mem_map.mp hr with ⟨r0, _, rfl⟩
  rcases List.mem_map.mp hv with ⟨v0, _, rfl⟩
  exact trimVal_idem v0

theorem stdTable_of_fixed (t : Table) (h : NamesStd t) : stdTable t = t := by
  cases t with
  | mk hd rows =>
    show Table.mk (hd.map standardize_column_name) rows = Table.mk hd rows
    rw [map_eq_self_of hd _ h]

theorem stdTable_fixes (t : Table) : NamesStd (stdTable t) := by
  intro n hn
  rcases List.mem_map.mp hn with ⟨n0, _, rfl⟩
  exact standardize_column_name_idem n0

theorem dropEmptyRowsT_of_noEmpty (t : Table) (h : NoEmptyRows t) : dropEmptyRowsT t = t := by
  cases t with
  | mk hd rows =>
    show Table.mk hd (rows.filter rowNonNA) = Table.mk hd rows
    rw [List.filter_eq_self.mpr h]

theorem dropEmptyRowsT_noEmpty (t : Table) : NoEmptyRows (dropEmptyRowsT t) := by
  intro r hr
  exact List.of_mem_filter hr

theorem mem_dedupFirstGo [DecidableEq α] (x : α) (l : List α) :
    ∀ seen, x ∈ l → x ∉ seen → x ∈ dedupFirstGo seen l := by
  induction l with
  | nil => intro seen h _; simp at h
  | cons a as ih =>
    intro seen hx hns
    unfold dedupFirstGo
    by_cases ha : a ∈ seen
    · rw [if_pos ha]
      rcases List.mem_cons.mp hx with rfl | hx'
      · exact absurd ha hns
      · exact ih seen hx' hns
    · rw [if_neg ha]
      rcases List.mem_cons.mp hx with rfl | hx'
      · exact List.mem_cons_self _ _
      · by_cases hxa : x = a
        · subst hxa
          exact List.mem_cons_self _ _
        · refine List.mem_cons_of_mem a (ih (a :: seen) hx' ?_)
          intro hmem
          rcases List.mem_cons.mp hmem with h1 | h1
          · exact hxa h1
          · exact hns h1

theorem mem_dedupFirst [DecidableEq α] (x : α) (l : List α) (h : x ∈ l) : x ∈ dedupFirst l :=
  mem_dedupFirstGo x l [] h (List.not_mem_nil x)

theorem not_mem_seen_of_mem_dedupFirstGo [DecidableEq α] (x : α) (l : List α) :
    ∀ seen, x ∈ dedupFirstGo seen l → x ∉ seen := by
  induction l with
  | nil => intro seen h; simp [dedupFirstGo] at h
  | cons a as ih =>
    intro seen h
    unfold dedupFirstGo at h
    by_cases ha : a ∈ seen
    · rw [if_pos ha] at h
      exact ih seen h
    · rw [if_neg ha] at h
      rcases List.mem_cons.mp h with rfl | h'
      · exact ha
      · intro hx
        exact ih (a :: seen) h' (List.mem_cons_of_mem a hx)

theorem dedupFirstGo_nodup [DecidableEq α] (l : List α) :
    ∀ seen, (dedupFirstGo seen l).Nodup := by
  induction l with
  | nil => intro seen; simp [dedupFirstGo]
  | cons a as ih =>
    intro seen
    unfold dedupFirstGo
    by_cases ha : a ∈ seen
    · rw [if_pos ha]
      exact ih seen
    · rw [if_neg ha]
      refine List.nodup_cons.mpr ⟨?_, ih (a :: seen)⟩
      intro hmem
      exact (not_mem_seen_of_mem_dedupFirstGo a as (a :: seen) hmem) (List.mem_cons_self a seen)

theorem dedupFirstGo_eq_self [DecidableEq α] (l : List α) :
    ∀ seen, l.Nodup → (∀ x ∈ l, x ∉ seen) → dedupFirstGo seen l = l := by
  induction l with
  | nil => intro seen _ _; rfl
  | cons a as ih =>
    intro seen hnd hdisj
    unfold dedupFirstGo
    rw [if_neg (hdisj a (List.mem_cons_self a as))]
    congr 1
    refine ih (a :: seen) (List.nodup_cons.mp hnd).2 ?_
    intro x hx hmem
    rcases List.mem_cons.mp hmem with rfl | h1
    · exact (List.nodup_cons.mp hnd).1 hx
    · exact hdisj x (List.mem_cons_of_mem a hx) h1

theorem dropDupT_of_nodup (t : Table) (h : NodupRows t) : dropDupT t = t := by
  cases t with
  | mk hd rows =>
    show Table.mk hd (dedupFirst rows) = Table.mk hd rows
    rw [show dedupFirst rows = rows from
      dedupFirstGo_eq_self rows [] h (fun x _ => List.not_mem_nil x)]

theorem dropDupT_nodup (t : Table) : NodupRows (dropDupT t) :=
  dedupFirstGo_nodup t.rows []

/-! ## C1 groundwork: the drop-empty-columns engine -/

theorem mem_zipWith_cons {xs : List Val} {ys : List (List Val)} {r : List Val}
    (h : r ∈ List.zipWith List.cons xs ys) : ∃ x ∈ xs, ∃ y ∈ ys, r = x :: y := by
  induction xs generalizing ys with
  | nil => simp at h
  | cons x xs ih =>
    cases ys with
    | nil => simp at h
    | cons y ys =>
      rw [List.zipWith_cons_cons] at h
      rcases List.mem_cons.mp h with h' | h'
      · exact ⟨x, List.mem_cons_self _ _, y, List.mem_cons_self _ _, h'⟩
      · rcases ih h' with ⟨x', hx', y', hy', hr⟩
        exact ⟨x', List.mem_cons_of_mem _ hx', y', List.mem_cons_of_mem _ hy', hr⟩

theorem tailsOf_rect (hd0 : String) (hs : List String) (rows : List (List Val))
    (h : ∀ r ∈ rows, r.length = (hd0 :: hs).length) :
    ∀ r ∈ tailsOf rows, r.length = hs.length := by
  intro r hr
  rcases List.mem_map.mp hr with ⟨r0, hr0, rfl⟩
  have := h r0 hr0
  simp only [List.length_cons] at this
  simp [List.length_tail, this]

theorem decGo_rect (hd : List String) : ∀ (rows : List (List Val)),
    (∀ r ∈ rows, r.length = hd.length) →
    ∀ r' ∈ (decGo hd rows).2, r'.length = (decGo hd rows).1.length := by
  induction hd with
  | nil =>
    intro rows _ r' hr'
    rcases List.mem_map.mp hr' with ⟨r0, _, rfl⟩
    rfl
  | cons h0 hs ih =>
    intro rows h r' hr'
    have htails := tailsOf_rect h0 hs rows h
    unfold decGo at hr' ⊢
    by_cases hcond : ((headsOf rows).any fun v => !isNA v) = true
    · rw [if_pos hcond] at hr' ⊢
      rcases mem_zipWith_cons hr' with ⟨x, _, y, hy, rfl⟩
      simp only [List.length_cons]
      rw [ih (tailsOf rows) htails y hy]
    · rw [if_neg hcond] at hr' ⊢
      exact ih (tailsOf rows) htails r' hr'

theorem decGo_cell_pred (P : Val → Prop) (hNA : P Val.vNA) (hd : List String) :
    ∀ (rows : List (List Val)), (∀ r ∈ rows, ∀ v ∈ r, P v) →
      ∀ r' ∈ (decGo hd rows).2, ∀ v ∈ r', P v := by
  induction hd with
  | nil =>
    intro rows _ r' hr' v hv
    rcases List.mem_map.mp hr' with ⟨r0, _, rfl⟩
    simp at hv
  | cons h0 hs ih =>
    intro rows hall r' hr' v hv
    have htails : ∀ r ∈ tailsOf rows, ∀ v ∈ r, P v := by
      intro r hr v0 hv0
      rcases List.mem_map.mp hr with ⟨r0, hr0, rfl⟩
      exact hall r0 hr0 v0 ((List.tail_sublist r0).subset hv0)
    unfold decGo at hr'
    by_cases hcond : ((headsOf rows).any fun v => !isNA v) = true
    · rw [if_pos hcond] at hr'
      rcases mem_zipWith_cons hr' with ⟨x, hx, y, hy, rfl⟩
      rcases List.mem_cons.mp hv with rfl | hv'
      · rcases List.mem_map.mp hx with ⟨r0, hr0, rfl⟩
        cases r0 with
        | nil => exact hNA
        | cons a as => exact hall _ hr0 a (List.mem_cons_self a as)
      · exact ih (tailsOf rows) htails y hy v hv'
    · rw [if_neg hcond] at hr'
      exact ih (tailsOf rows) htails r' hr' v hv

theorem headsOf_getD (rows : List (List Val)) : ∀ i, i < rows.length →
    (headsOf rows).getD i Val.vNA = (rows.getD i []).headD Val.vNA := by
  induction rows with
  | nil => intro i hi; simp at hi
  | cons r rs ih =>
    intro i hi
    cases i with
    | zero => rfl
    | succ n =>
      simp only [headsOf, List.map_cons, List.getD_cons_succ]
      exact ih n (by simpa using hi)

theorem tailsOf_getD (rows : List (List Val)) : ∀ i, i < rows.length →
    (tailsOf rows).getD i [] = (rows.getD i []).tail := by
  induction rows with
  | nil => intro i hi; simp at hi
  | cons r rs ih =>
    intro i hi
    cases i with
    | zero => rfl
    | succ n =>
      simp only [tailsOf, List.map_cons, List.getD_cons_succ]
      exact ih n (by simpa using hi)

theorem getD_zipWith_cons (xs : List Val) : ∀ (ys : List (List Val)) (i : Nat),
    i < xs.length → i < ys.length →
    (List.zipWith List.cons xs ys).getD i [] = xs.getD i Val.vNA :: ys.getD i [] := by
  induction xs with
  | nil => intro ys i hx _; simp at hx
  | cons x xs ih =>
    intro ys i hx hy
    cases ys with
    | nil => simp at hy
    | cons y ys =>
      cases i with
      | zero => rfl
      | succ n =>
        rw [List.zipWith_cons_cons, List.getD_cons_succ, List.getD_cons_succ,
          List.getD_cons_succ]
        exact ih ys n (by simpa using hx) (by simpa using hy)

theorem getD_mem (l : List α) (d : α) (i : Nat) (h : i < l.length) : l.getD i d ∈ l := by
  rw [List.getD_eq_getElem l d h]
  exact List.getElem_mem h

theorem decGo_row_any_idx (hd : List String) : ∀ (rows : List (List Val)),
    (∀ r ∈ rows, r.length = hd.length) →
    ∀ i, i < rows.length → rowNonNA (rows.getD i []) = true →
      rowNonNA ((decGo hd rows).2.getD i []) = true := by
  induction hd with
  | nil =>
    intro rows hrect i hi hnn
    have h0 : (rows.getD i []).length = 0 := hrect _ (getD_mem rows [] i hi)
    rw [List.length_eq_zero.mp h0] at hnn
    simp [rowNonNA] at hnn
  | cons h0 hs ih =>
    intro rows hrect i hi hnn
    have htails := tailsOf_rect h0 hs rows hrect
    have hlen : (tailsOf rows).length = rows.length := by simp [tailsOf]
    have hne : rows.getD i [] ≠ [] := by
      intro he
      have := hrect _ (getD_mem rows [] i hi)
      rw [he] at this
      simp at this
    obtain ⟨a, tl, hcons⟩ : ∃ a tl, rows.getD i [] = a :: tl := by
      rcases hx : rows.getD i [] with _ | ⟨a, tl⟩
      · exact absurd hx hne
      · exact ⟨a, tl, rfl⟩
    have hhead : (headsOf rows).getD i Val.vNA = a := by
      rw [headsOf_getD rows i hi, hcons]
      rfl
    have htail : (tailsOf rows).getD i [] = tl := by
      rw [tailsOf_getD rows i hi, hcons]
      rfl
    rw [hcons] at hnn
    have hnn' : (!isNA a || tl.any fun v => !isNA v) = true := by
      simpa [rowNonNA] using hnn
    unfold decGo
    by_cases hcond : ((headsOf rows).any fun v => !isNA v) = true
    · rw [if_pos hcond]
      show rowNonNA ((List.zipWith List.cons (headsOf rows) (decGo hs (tailsOf rows)).2).getD i []) = true
      rw [getD_zipWith_cons (headsOf rows) (decGo hs (tailsOf rows)).2 i
        (by simpa [headsOf] using hi)
        (by rw [decGo_rows_length, hlen]; exact hi), hhead]
      rcases Bool.or_eq_true_iff.mp hnn' with hA | hT
      · simp [rowNonNA, hA]
      · have := ih (tailsOf rows) htails i (by rw [hlen]; exact hi)
          (by rw [htail]; simpa [rowNonNA] using hT)
        simp only [rowNonNA, List.any_cons] at this ⊢
        rw [this]
        simp
    · rw [if_neg hcond]
      have hana : isNA a = true := by
        have hall := List.any_eq_false.mp (Bool.not_eq_true _ ▸ hcond)
        have hmem : a ∈ headsOf rows := by
          rw [← hhead]
          exact getD_mem _ _ i (by simpa [headsOf] using hi)
        have := hall a hmem
        simpa using this
      have htl : rowNonNA tl = true := by
        rcases Bool.or_eq_true_iff.mp hnn' with hA | hT
        · rw [hana] at hA
          simp at hA
        · simpa [rowNonNA] using hT
      exact ih (tailsOf rows) htails i (by rw [hlen]; exact hi) (by rw [htail]; exact htl)

theorem decGo_row_any (hd : List String) (rows : List (List Val))
    (hrect : ∀ r ∈ rows, r.length = hd.length)
    (hall : ∀ r ∈ rows, rowNonNA r = true) :
    ∀ r' ∈ (decGo hd rows).2, rowNonNA r' = true := by
  intro r' hr'
  rcases List.getElem_of_mem hr' with ⟨i, hi, rfl⟩
  have hi' : i < rows.length := by
    rw [← decGo_rows_length hd rows]
    exact hi
  have h1 : rowNonNA (rows.getD i []) = true :=
    hall _ (getD_mem rows [] i hi')
  have := decGo_row_any_idx hd rows hrect i hi' h1
  rw [List.getD_eq_getElem _ _ hi] at this
  exact this

theorem map_getD_zero_zip_cons (xs : List Val) : ∀ (ys : List (List Val)),
    ys.length = xs.length →
    (List.zipWith List.cons xs ys).map (fun r => r.getD 0 Val.vNA) = xs := by
  induction xs with
  | nil => intro ys h; rw [List.length_eq_zero.mp h]; rfl
  | cons x xs ih =>
    intro ys h
    cases ys with
    | nil => simp at h
    | cons y ys =>
      rw [List.zipWith_cons_cons, List.map_cons, List.getD_cons_zero,
        ih ys (by simpa using h)]

theorem map_getD_succ_zip_cons (xs : List Val) : ∀ (ys : List (List Val)) (n : Nat),
    ys.length = xs.length →
    (List.zipWith List.cons xs ys).map (fun r => r.getD (n + 1) Val.vNA)
      = ys.map (fun r => r.getD n Val.vNA) := by
  induction xs with
  | nil => intro ys n h; rw [List.length_eq_zero.mp h]; rfl
  | cons x xs ih =>
    intro ys n h
    cases ys with
    | nil => simp at h
    | cons y ys =>
      rw [List.zipWith_cons_cons, List.map_cons, List.map_cons, List.getD_cons_succ,
        ih ys n (by simpa using h)]

theorem decGo_cols_nonNA (hd : List String) : ∀ (rows : List (List Val)),
    ColsNonNAL (decGo hd rows).1 (decGo hd rows).2 := by
  induction hd with
  | nil =>
    intro rows j hj
    simp [decGo] at hj
  | cons h0 hs ih =>
    intro rows j hj
    have hlen2 : (decGo hs (tailsOf rows)).2.length = (headsOf rows).length := by
      rw [decGo_rows_length]
      simp [tailsOf, headsOf]
    unfold decGo at hj ⊢
    by_cases hcond : ((headsOf rows).any fun v => !isNA v) = true
    · rw [if_pos hcond] at hj ⊢
      cases j with
      | zero =>
        show ((List.zipWith List.cons (headsOf rows) (decGo hs (tailsOf rows)).2).map
          (fun r => r.getD 0 Val.vNA)).any (fun v => !isNA v) = true
        rw [map_getD_zero_zip_cons (headsOf rows) _ hlen2]
        exact hcond
      | succ n =>
        show ((List.zipWith List.cons (headsOf rows) (decGo hs (tailsOf rows)).2).map
          (fun r => r.getD (n + 1) Val.vNA)).any (fun v => !isNA v) = true
        rw [map_getD_succ_zip_cons (headsOf rows) _ n hlen2]
        exact ih (tailsOf rows) n (by simpa using hj)
    · rw [if_neg hcond] at hj ⊢
      exact ih (tailsOf rows) j hj

theorem zipCons_heads_tails (rows : List (List Val)) (hne : ∀ r ∈ rows, r ≠ []) :
    zipConsRows (headsOf rows) (tailsOf rows) = rows := by
  induction rows with
  | nil => rfl
  | cons r rs ih =>
    show List.zipWith List.cons (headsOf (r :: rs)) (tailsOf (r :: rs)) = r :: rs
    cases hr : r with
    | nil => exact absurd hr (hne r (List.mem_cons_self r rs))
    | cons a as =>
      simp only [headsOf, tailsOf, List.map_cons, List.zipWith_cons_cons]
      show (a :: as) :: List.zipWith List.cons (rs.map fun r => r.headD Val.vNA)
          (rs.map List.tail) = (a :: as) :: rs
      have hrs := ih (fun x hx => hne x (List.mem_cons_of_mem r hx))
      unfold zipConsRows headsOf tailsOf at hrs
      rw [hrs]

theorem decGo_eq_self (hd : List String) : ∀ (rows : List (List Val)),
    (∀ r ∈ rows, r.length = hd.length) → ColsNonNAL hd rows →
    decGo hd rows = (hd, rows) := by
  induction hd with
  | nil =>
    intro rows hrect _
    unfold decGo
    rw [map_eq_self_of rows _ (fun r hr => (List.length_eq_zero.mp (hrect r hr)).symm)]
  | cons h0 hs ih =>
    intro rows hrect hcols
    have hne : ∀ r ∈ rows, r ≠ [] := by
      intro r hr he
      have := hrect r hr
      rw [he] at this
      simp at this
    have hheads : rows.map (fun r => r.getD 0 Val.vNA) = headsOf rows := by
      refine List.map_congr_left ?_
      intro r _
      cases r <;> rfl
    have hcond : ((headsOf rows).any fun v => !isNA v) = true := by
      have := hcols 0 (by simp)
      rw [hheads] at this
      exact this
    have htails := tailsOf_rect h0 hs rows hrect
    have hcolstails : ColsNonNAL hs (tailsOf rows) := by
      intro j hj
      have hcol := hcols (j + 1) (by simpa using hj)
      have hmap : rows.map (fun r => r.getD (j + 1) Val.vNA)
          = (tailsOf rows).map (fun r => r.getD j Val.vNA) := by
        unfold tailsOf
        rw [List.map_map]
        refine List.map_congr_left ?_
        intro r hr
        cases hx : r with
        | nil => exact absurd hx (hne r hr)
        | cons a as => rfl
      rw [hmap] at hcol
      exact hcol
    unfold decGo
    rw [if_pos hcond, ih (tailsOf rows) htails hcolstails]
    show (h0 :: hs, zipConsRows (headsOf rows) (tailsOf rows)) = (h0 :: hs, rows)
    rw [zipCons_heads_tails rows hne]

theorem dropEmptyColsT_rect (t : Table) (h : Rect t) : Rect (dropEmptyColsT t) :=
  decGo_rect t.header t.rows h

theorem dropEmptyColsT_colsNonNA (t : Table) : ColsNonNA (dropEmptyColsT t) :=
  decGo_cols_nonNA t.header t.rows

theorem dropEmptyColsT_of_colsNonNA (t : Table) (hrect : Rect t) (h : ColsNonNA t) :
    dropEmptyColsT t = t := by
  cases t with
  | mk hd rows =>
    show Table.mk (decGo hd rows).1 (decGo hd rows).2 = Table.mk hd rows
    rw [decGo_eq_self hd rows hrect h]

/-! ## C1 groundwork: preservation of the fixed-point predicates -/

theorem trimTable_rect (t : Table) (h : Rect t) : Rect (trimTable t) := by
  intro r hr
  rcases List.mem_map.mp hr with ⟨r0, hr0, rfl⟩
  simpa using h r0 hr0

theorem stdTable_rect (t : Table) (h : Rect t) : Rect (stdTable t) := by
  intro r hr
  show r.length = (t.header.map standardize_column_name).length
  rw [List.length_map]
  exact h r hr

theorem dropEmptyRowsT_rect (t : Table) (h : Rect t) : Rect (dropEmptyRowsT t) := by
  intro r hr
  exact h r (List.mem_of_mem_filter hr)

theorem dropDupT_rect (t : Table) (h : Rect t) : Rect (dropDupT t) := by
  intro r hr
  exact h r ((dedupFirst_sublist t.rows).subset hr)

theorem trimFixed_std (t : Table) (h : TrimFixed t) : TrimFixed (stdTable t) := h

theorem trimFixed_der (t : Table) (h : TrimFixed t) : TrimFixed (dropEmptyRowsT t) := by
  intro r hr
  exact h r (List.mem_of_mem_filter hr)

theorem trimFixed_dec (t : Table) (h : TrimFixed t) : TrimFixed (dropEmptyColsT t) :=
  decGo_cell_pred (fun v => trimVal v = v) rfl t.header t.rows h

theorem trimFixed_dup (t : Table) (h : TrimFixed t) : TrimFixed (dropDupT t) := by
  intro r hr
  exact h r ((dedupFirst_sublist t.rows).subset hr)

theorem namesStd_der (t : Table) (h : NamesStd t) : NamesStd (dropEmptyRowsT t) := h

theorem namesStd_dec (t : Table) (h : NamesStd t) : NamesStd (dropEmptyColsT t) := by
  intro n hn
  exact h n ((decGo_header_sublist t.header t.rows).subset hn)

theorem namesStd_dup (t : Table) (h : NamesStd t) : NamesStd (dropDupT t) := h

theorem noEmpty_dec (t : Table) (hrect : Rect t) (h : NoEmptyRows t) :
    NoEmptyRows (dropEmptyColsT t) :=
  decGo_row_any t.header t.rows hrect h

theorem noEmpty_dup (t : Table) (h : NoEmptyRows t) : NoEmptyRows (dropDupT t) := by
  intro r hr
  exact h r ((dedupFirst_sublist t.rows).subset hr)

theorem colsNonNA_dup (t : Table) (h : ColsNonNA t) : ColsNonNA (dropDupT t) := by
  intro j hj
  have hcol := h j hj
  rcases List.any_eq_true.mp hcol with ⟨x, hx, hxv⟩
  rcases List.mem_map.mp hx with ⟨r, hr, rfl⟩
  refine List.any_eq_true.mpr ⟨r.getD j Val.vNA, ?_, hxv⟩
  exact List.mem_map.mpr ⟨r, mem_dedupFirst r t.rows hr, rfl⟩

/-! ## C1: the structural pipeline and its idempotence -/

/-- Run a pipeline step when its flag is enabled. -/
def stepIf (b : Bool) (f : Table → Table) (t : Table) : Table := if b then f t else t

/-- The cleaning pipeline restricted to its five structural steps
(fix-numbers and parse-dates disabled). -/
def clean5 (b1 b2 b3 b4 b5 : Bool) (t : Table) : Table :=
  stepIf b5 dropDupT (stepIf b4 dropEmptyColsT (stepIf b3 dropEmptyRowsT
    (stepIf b2 stdTable (stepIf b1 trimTable t))))

theorem stepIf_pres (P : Table → Prop) (b : Bool) (f : Table → Table)
    (hf : ∀ u, P u → P (f u)) (u : Table) (h : P u) : P (stepIf b f u) := by
  cases b
  · simpa [stepIf] using h
  · simpa [stepIf] using hf u h

theorem stepIf_pres_rect (P : Table → Prop) (b : Bool) (f : Table → Table)
    (hf : ∀ u, Rect u → P u → P (f u)) (u : Table) (hrect : Rect u) (h : P u) :
    P (stepIf b f u) := by
  cases b
  · simpa [stepIf] using h
  · simpa [stepIf] using hf u hrect h

theorem stepIf_rect (b : Bool) (f : Table → Table) (hf : ∀ u, Rect u → Rect (f u))
    (u : Table) (h : Rect u) : Rect (stepIf b f u) := by
  cases b
  · simpa [stepIf] using h
  · simpa [stepIf] using hf u h

theorem stepIf_fix (b : Bool) (f : Table → Table) (u : Table)
    (hfix : b = true → f u = u) : stepIf b f u = u := by
  cases b
  · rfl
  · simpa [stepIf] using hfix rfl

theorem stepIf_on (b : Bool) (f : Table → Table) (u : Table) (hb : b = true) :
    stepIf b f u = f u := by
  rw [hb]
  rfl

theorem clean5_idem (b1 b2 b3 b4 b5 : Bool) (t : Table) (hrect : Rect t) :
    clean5 b1 b2 b3 b4 b5 (clean5 b1 b2 b3 b4 b5 t) = clean5 b1 b2 b3 b4 b5 t := by
  set x1 := stepIf b1 trimTable t with hx1
  set x2 := stepIf b2 stdTable x1 with hx2
  set x3 := stepIf b3 dropEmptyRowsT x2 with hx3
  set x4 := stepIf b4 dropEmptyColsT x3 with hx4
  set x5 := stepIf b5 dropDupT x4 with hx5
  have hr1 : Rect x1 := stepIf_rect b1 _ trimTable_rect t hrect
  have hr2 : Rect x2 := stepIf_rect b2 _ stdTable_rect x1 hr1
  have hr3 : Rect x3 := stepIf_rect b3 _ dropEmptyRowsT_rect x2 hr2
  have hr4 : Rect x4 := stepIf_rect b4 _ dropEmptyColsT_rect x3 hr3
  have hr5 : Rect x5 := stepIf_rect b5 _ dropDupT_rect x4 hr4
  have hP1 : b1 = true → TrimFixed x5 := by
    intro hb
    have h1 : TrimFixed x1 := by
      rw [hx1, stepIf_on b1 _ t hb]
      exact trimTable_fixes t
    have h2 : TrimFixed x2 := stepIf_pres _ b2 _ trimFixed_std x1 h1
    have h3 : TrimFixed x3 := stepIf_pres _ b3 _ trimFixed_der x2 h2
    have h4 : TrimFixed x4 := stepIf_pres _ b4 _ trimFixed_dec x3 h3
    exact stepIf_pres _ b5 _ trimFixed_dup x4 h4
  have hP2 : b2 = true → NamesStd x5 := by
    intro hb
    have h2 : NamesStd x2 := by
      rw [hx2, stepIf_on b2 _ x1 hb]
      exact stdTable_fixes x1
    have h3 : NamesStd x3 := stepIf_pres _ b3 _ namesStd_der x2 h2
    have h4 : NamesStd x4 := stepIf_pres _ b4 _ namesStd_dec x3 h3
    exact stepIf_pres _ b5 _ namesStd_dup x4 h4
  have hP3 : b3 = true → NoEmptyRows x5 := by
    intro hb
    have h3 : NoEmptyRows x3 := by
      rw [hx3, stepIf_on b3 _ x2 hb]
      exact dropEmptyRowsT_noEmpty x2
    have h4 : NoEmptyRows x4 := stepIf_pres_rect _ b4 _ noEmpty_dec x3 hr3 h3
    exact stepIf_pres _ b5 _ noEmpty_dup x4 h4
  have hP4 : b4 = true → ColsNonNA x5 := by
    intro hb
    have h4 : ColsNonNA x4 := by
      rw [hx4, stepIf_on b4 _ x3 hb]
      exact dropEmptyColsT_colsNonNA x3
    exact stepIf_pres _ b5 _ colsNonNA_dup x4 h4
  have hP5 : b5 = true → NodupRows x5 := by
    intro hb
    rw [hx5, stepIf_on b5 _ x4 hb]
    exact dropDupT_nodup x4
  have e1 : stepIf b1 trimTable x5 = x5 :=
    stepIf_fix b1 _ x5 (fun hb => trimTable_of_fixed x5 (hP1 hb))
  have e2 : stepIf b2 stdTable x5 = x5 :=
    stepIf_fix b2 _ x5 (fun hb => stdTable_of_fixed x5 (hP2 hb))
  have e3 : stepIf b3 dropEmptyRowsT x5 = x5 :=
    stepIf_fix b3 _ x5 (fun hb => dropEmptyRowsT_of_noEmpty x5 (hP3 hb))
  have e4 : stepIf b4 dropEmptyColsT x5 = x5 :=
    stepIf_fix b4 _ x5 (fun hb => dropEmptyColsT_of_colsNonNA x5 hr5 (hP4 hb))
  have e5 : stepIf b5 dropDupT x5 = x5 :=
    stepIf_fix b5 _ x5 (fun hb => dropDupT_of_nodup x5 (hP5 hb))
  show stepIf b5 dropDupT (stepIf b4 dropEmptyColsT (stepIf b3 dropEmptyRowsT
    (stepIf b2 stdTable (stepIf b1 trimTable x5)))) = x5
  rw [e1, e2, e3, e4, e5]

/-- C1 counterexample: cleaning is not idempotent over all
configurations.  With drop-duplicates and fix-numbers enabled, the
column of texts "1.0" and "1" survives deduplication as two distinct
texts and is then coerced to two equal numbers, which a second run
deduplicates; with drop-empty-rows and parse-dates enabled, a column
crossing the date threshold gains a missing cell from an unparseable
value, which a second run drops as an empty row. -/
theorem clean_dataframe_not_idempotent :
    (clean_dataframe (clean_dataframe ⟨["a"], [[Val.vStr "1.0"], [Val.vStr "1"]]⟩
          ⟨false, false, false, false, true, true, false⟩)
        ⟨false, false, false, false, true, true, false⟩
      ≠ clean_dataframe ⟨["a"], [[Val.vStr "1.0"], [Val.vStr "1"]]⟩
          ⟨false, false, false, false, true, true, false⟩) ∧
    (clean_dataframe (clean_dataframe ⟨["a"], [[Val.vStr "2024-01-05"], [Val.vStr "2024-01-06"],
            [Val.vStr "2024-01-07"], [Val.vStr "x"]]⟩
          ⟨false, false, true, false, false, false, true⟩)
        ⟨false, false, true, false, false, false, true⟩
      ≠ clean_dataframe ⟨["a"], [[Val.vStr "2024-01-05"], [Val.vStr "2024-01-06"],
            [Val.vStr "2024-01-07"], [Val.vStr "x"]]⟩
          ⟨false, false, true, false, false, false, true⟩) := by
  constructor <;> decide

/-- C1 amended: the cleaning pipeline is idempotent for every
configuration in which fix-numbers and parse-dates are disabled — for
every rectangular table and any assignment of the other five flags,
re-running the pipeline on its own output returns the same table.  With
fix-numbers or parse-dates enabled a second run can differ. -/
theorem clean_dataframe_idempotent_structural (t : Table) (b1 b2 b3 b4 b5 : Bool)
    (h : Rect t) :
    clean_dataframe (clean_dataframe t ⟨b1, b2, b3, b4, b5, false, false⟩)
        ⟨b1, b2, b3, b4, b5, false, false⟩
      = clean_dataframe t ⟨b1, b2, b3, b4, b5, false, false⟩ := by
  show clean5 b1 b2 b3 b4 b5 (clean5 b1 b2 b3 b4 b5 t) = clean5 b1 b2 b3 b4 b5 t
  exact clean5_idem b1 b2 b3 b4 b5 t h

/-- C1 witness: the amended idempotence applied to a concrete
rectangular table with every structural flag enabled. -/
theorem clean_dataframe_idempotent_structural_witness :
    clean_dataframe (clean_dataframe
        ⟨["A b", " c "], [[Val.vStr " x ", Val.vNA], [Val.vNA, Val.vNA], [Val.vStr " x ", Val.vNA]]⟩
        ⟨true, true, true, true, true, false, false⟩)
      ⟨true, true, true, true, true, false, false⟩
    = clean_dataframe
        ⟨["A b", " c "], [[Val.vStr " x ", Val.vNA], [Val.vNA, Val.vNA], [Val.vStr " x ", Val.vNA]]⟩
        ⟨true, true, true, true, true, false, false⟩ :=
  clean_dataframe_idempotent_structural _ true true true true true (by decide)

end CleanMyCSV
